import Mathlib

/-!
# Verification of the Ouroboros supervisor against its specification

Shallow embedding of the parts of the Ouroboros runtime that the checked
claims are about: the per-task LLM tool loop (`ouroboros/loop.py`), the
LLM provider routing (`ouroboros/llm.py`), the git write-and-commit tool and
path sanitisation (`ouroboros/agent.py`), and the owner authorisation of the
supervisor main loop (`supervisor/main.py`).

Python strings are modelled as Lean `String`s and manipulated through their
`data : List Char` so that every operation is structurally recursive and
kernel-evaluable; Python `len` counts code points, which matches
`String.data.length`.  Python floats (costs, budgets) are modelled as `ℚ`.
Network and filesystem effects are modelled by oracles: the LLM is a script
of outcomes, tool handlers are a function from call to result string, and
git subprocess steps are a record of which step fails.
-/

set_option maxHeartbeats 1000000

namespace Ouroboros

/-! ## String helpers (models of the Python string operations used) -/

def isSpaceChar (c : Char) : Bool := c = ' ' || c = '\t' || c = '\n' || c = '\r'

/-- Python `str.strip()` (for the ASCII whitespace the code encounters). -/
def sTrim (s : String) : String :=
  ⟨((s.data.dropWhile isSpaceChar).reverse.dropWhile isSpaceChar).reverse⟩

/-- Python `str.lower()` (the code only lowercases ASCII identifiers). -/
def sLower (s : String) : String := ⟨s.data.map Char.toLower⟩

/-- Python `s.startswith(p)`. -/
def strStarts (s p : String) : Bool := p.data.isPrefixOf s.data

/-- Python `c in s` for a single character. -/
def hasChar (s : String) (c : Char) : Bool := s.data.contains c

/-- Python `s.split(sep)` on a single separator character. -/
def splitOnChar (sep : Char) (cs : List Char) : List (List Char) :=
  cs.foldr
    (fun c acc =>
      if c = sep then [] :: acc
      else
        match acc with
        | [] => [[c]]
        | h :: t => (c :: h) :: t)
    [[]]

/-- Join char-list components with `'/'` (used by split-once on `/`). -/
def joinSlash : List (List Char) → List Char
  | [] => []
  | [x] => x
  | x :: xs => x ++ '/' :: joinSlash xs

/-! ## ouroboros/llm.py — effort normalisation and ranking -/

def ALLOWED_EFFORTS : List String := ["none", "minimal", "low", "medium", "high", "xhigh"]

/-- `llm.normalize_reasoning_effort` (llm.py:38-42). -/
def normalize_reasoning_effort (value : String) (default : String := "medium") : String :=
  let v := sLower (sTrim value)
  if ALLOWED_EFFORTS.contains v then v else default

/-- `llm.reasoning_rank` (llm.py:45-48): unknown strings rank as `medium` (3). -/
def reasoning_rank (value : String) : Nat :=
  let v := sLower (sTrim value)
  if v = "none" then 0
  else if v = "minimal" then 1
  else if v = "low" then 2
  else if v = "medium" then 3
  else if v = "high" then 4
  else if v = "xhigh" then 5
  else 3

/-! ## ouroboros/llm.py — provider routing (`ProviderConfig`) -/

def OPENROUTER_BASE_URL : String := "https://openrouter.ai/api/v1"
def OPENAI_BASE_URL : String := "https://api.openai.com/v1"
def OPENAI_CODEX_BASE_URL : String := "https://api.openai.com/v1"
def ZAI_BASE_URL : String := "https://api.z.ai/api/paas/v4"
def OPENCODE_BASE_URL : String := "https://api.opencode.ai/v1"

/-- The environment variables `ProviderConfig` consults (llm.py:67-89).
An unset variable is the empty string, matching `os.environ.get(..., "")`. -/
structure PEnv where
  ouroboros_llm_provider : String := ""
  openrouter_api_key : String := ""
  openai_api_key : String := ""
  openai_codex_key : String := ""
  zai_api_key : String := ""
  opencode_api_key : String := ""
  openai_base_url : String := OPENAI_BASE_URL
  openai_codex_base_url : String := OPENAI_CODEX_BASE_URL
  zai_base_url : String := ZAI_BASE_URL
  opencode_base_url : String := OPENCODE_BASE_URL
deriving Repr, DecidableEq

def PROVIDERS : List String := ["openrouter", "openai", "openai-codex", "zai", "opencode"]

/-- `ProviderConfig.get_key` (llm.py:76-78). -/
def get_key (env : PEnv) (provider : String) : String :=
  if provider = "openrouter" then sTrim env.openrouter_api_key
  else if provider = "openai" then sTrim env.openai_api_key
  else if provider = "openai-codex" then sTrim env.openai_codex_key
  else if provider = "zai" then sTrim env.zai_api_key
  else if provider = "opencode" then sTrim env.opencode_api_key
  else ""

def ENV_KEY_NAME (provider : String) : String :=
  if provider = "openrouter" then "OPENROUTER_API_KEY"
  else if provider = "openai" then "OPENAI_API_KEY"
  else if provider = "openai-codex" then "OPENAI_CODEX_KEY"
  else if provider = "zai" then "ZAI_API_KEY"
  else if provider = "opencode" then "OPENCODE_API_KEY"
  else ""

/-- `ProviderConfig.get_base_url` (llm.py:80-89). -/
def get_base_url (env : PEnv) (provider : String) : String :=
  if provider = "openrouter" then OPENROUTER_BASE_URL
  else if provider = "openai" then sTrim env.openai_base_url
  else if provider = "openai-codex" then sTrim env.openai_codex_base_url
  else if provider = "zai" then sTrim env.zai_base_url
  else if provider = "opencode" then sTrim env.opencode_base_url
  else ""

/-- `llm._strip_provider_prefix` (llm.py:59-61): `model.split("/", 1)[1]`. -/
def stripProviderPfx (model : String) : String :=
  match splitOnChar '/' model.data with
  | [] => model
  | [_] => model
  | _ :: rest => ⟨joinSlash rest⟩

structure Resolved where
  provider : String
  model : String
  key : String
  base_url : String
deriving Repr, DecidableEq

/-- The `prefix_map` dict of `resolve_by_model_prefix` (llm.py:96-102),
in insertion order (Python dicts iterate in insertion order). -/
def PFX_MAP : List (List String × String) :=
  [(["anthropic/", "openai/", "google/", "meta-llama/", "x-ai/", "qwen/", "mistralai/",
     "deepseek/"], "openrouter"),
   (["zai/", "z-ai/", "glm-"], "zai"),
   (["opencode/", "open-code/"], "opencode"),
   (["openai-codex/", "codex/"], "openai-codex"),
   (["openai/", "gpt-", "o1", "o3", "o4"], "openai")]

/-- The loop body of `ProviderConfig.resolve_by_model_prefix` (llm.py:91-116):
a matching group whose provider has no key falls through to later groups. -/
def resolve_by_model_pfx_aux (env : PEnv) (model ml : String) :
    List (List String × String) → Option Resolved
  | [] => none
  | (pfxs, provider0) :: rest =>
    if pfxs.any (fun p => strStarts ml p) then
      let key0 := get_key env provider0
      let pk : String × String :=
        if key0 = "" ∧ provider0 = "openai-codex" then (get_key env "openai", "openai")
        else (key0, provider0)
      if pk.1 ≠ "" then
        some { provider := pk.2,
               model := if hasChar model '/' then stripProviderPfx model else model,
               key := pk.1,
               base_url := get_base_url env pk.2 }
      else resolve_by_model_pfx_aux env model ml rest
    else resolve_by_model_pfx_aux env model ml rest

def resolve_by_model_pfx (env : PEnv) (model : String) : Option Resolved :=
  resolve_by_model_pfx_aux env model (sLower model) PFX_MAP

/-- `ProviderConfig.resolve_by_preference` (llm.py:118-139).  A preference
naming a known provider whose key is unset raises `ValueError` (`.error`). -/
def resolve_by_preference (env : PEnv) (model : String) : Except String (Option Resolved) :=
  let pref := sLower (sTrim env.ouroboros_llm_provider)
  if pref = "" ∨ pref = "auto" then .ok none
  else if pref ∈ PROVIDERS then
    let key := get_key env pref
    if key = "" then .error (ENV_KEY_NAME pref ++ " not set")
    else
      let em :=
        if (pref = "openai" ∨ pref = "openai-codex" ∨ pref = "zai" ∨ pref = "opencode")
            ∧ hasChar model '/' then stripProviderPfx model
        else model
      .ok (some ⟨pref, em, key, get_base_url env pref⟩)
  else .ok none

def FALLBACK_ORDER : List String := ["openrouter", "openai", "zai", "opencode"]

/-- The loop body of `ProviderConfig.resolve_fallback` (llm.py:141-155). -/
def resolve_fallback_aux (env : PEnv) (model : String) : List String → Except String Resolved
  | [] => .error "No LLM API key configured"
  | provider :: rest =>
    let key := get_key env provider
    if key ≠ "" then
      let em :=
        if (provider = "openai" ∨ provider = "zai" ∨ provider = "opencode")
            ∧ hasChar model '/' then stripProviderPfx model
        else model
      .ok ⟨provider, em, key, get_base_url env provider⟩
    else resolve_fallback_aux env model rest

def resolve_fallback (env : PEnv) (model : String) : Except String Resolved :=
  resolve_fallback_aux env model FALLBACK_ORDER

/-- `ProviderConfig.resolve` (llm.py:157-182). -/
def resolve (env : PEnv) (model : String) : Except String Resolved :=
  let m := sTrim model
  if m = "" then .error "Model name cannot be empty"
  else
    match resolve_by_preference env m with
    | .error e => .error e
    | .ok (some r) => .ok r
    | .ok none =>
      match resolve_by_model_pfx env m with
      | some r => .ok r
      | none =>
        let ml := sLower m
        if ml = "gpt-5.3-codex" then
          let key :=
            if get_key env "openai-codex" ≠ "" then get_key env "openai-codex"
            else get_key env "openai"
          if key = "" then
            .error "OPENAI_CODEX_KEY or OPENAI_API_KEY not set for gpt-5.3-codex"
          else .ok ⟨"openai", m, key, OPENAI_CODEX_BASE_URL⟩
        else resolve_fallback env m

/-! ## ouroboros/loop.py — constants and tool-result truncation -/

/-- `loop.READ_ONLY_PARALLEL_TOOLS` (loop.py:22-26). -/
def READ_ONLY_PARALLEL_TOOLS : List String :=
  ["repo_read", "repo_list", "drive_read", "drive_list",
   "web_search", "codebase_digest", "chat_history"]

def truncMarker (n : Nat) : String := "\n... (truncated from " ++ Nat.repr n ++ " chars)"

/-- `loop._truncate_tool_result` (loop.py:29-38): keep the first 3000
characters, appending a note with the original length when truncated. -/
def truncate_tool_result (s : String) : String :=
  if s.data.length ≤ 3000 then s
  else ⟨s.data.take 3000⟩ ++ truncMarker s.data.length

/-! ## Conversation data model (§3 ConversationBuffer, as used by loop.py) -/

inductive Role
  | system
  | user
  | assistant
  | tool
deriving DecidableEq, Repr

structure ToolCall where
  id : String
  name : String
  arguments : String := ""
deriving DecidableEq, Repr

structure Message where
  role : Role
  content : String
  tool_calls : List ToolCall := []
  tool_call_id : Option String := none
deriving DecidableEq, Repr

def userMsg (s : String) : Message := ⟨Role.user, s, [], none⟩
def systemMsg (s : String) : Message := ⟨Role.system, s, [], none⟩
def assistantMsg (content : String) (tcs : List ToolCall) : Message :=
  ⟨Role.assistant, content, tcs, none⟩
def toolMsg (callId : String) (content : String) : Message :=
  ⟨Role.tool, content, [], some callId⟩

/-- The pairing invariant of §3: scanning the buffer with the list of tool
calls still awaiting their result message.  An assistant message opens a
block of expected calls; each expected call must be answered by the very
next message, a `tool` message carrying its id; a `tool` message outside a
block is an orphan. -/
def wellPairedAux : List Message → List ToolCall → Bool
  | [], pending => pending.isEmpty
  | m :: rest, [] =>
    if m.role == Role.tool then false
    else if m.role == Role.assistant then wellPairedAux rest m.tool_calls
    else wellPairedAux rest []
  | m :: rest, c :: cs =>
    (m.role == Role.tool) && (m.tool_call_id == some c.id) && wellPairedAux rest cs

def wellPaired (msgs : List Message) : Bool := wellPairedAux msgs []

/-! ## Model profiles and task-profile selection -/

structure ModelProfile where
  model : String
  effort : String
deriving DecidableEq, Repr

/-- Modelled from the spec: `LLMClient.select_task_profile` is called at
loop.py:177 but its definition is not under `src/`.  §4.5 step 1: "Select
`ModelProfile` from task type: `analysis`/`review` → analysis profile,
`code` → code profile, `consciousness` → consciousness profile, else
default", with the profile keys of §3 (`default`, `light`, `code_task`,
`analysis`, `consciousness`). -/
def select_task_profile (task_type : String) : String :=
  if task_type = "analysis" ∨ task_type = "review" then "analysis"
  else if task_type = "code" then "code_task"
  else if task_type = "consciousness" then "consciousness"
  else "default"

/-! ## Context compaction -/

def isToolRoundMsg (m : Message) : Bool :=
  (m.role == Role.assistant) && !m.tool_calls.isEmpty

def compactBoundary (msgs : List Message) (keep : Nat) : Nat :=
  let idxs := (msgs.enum.filter (fun p => isToolRoundMsg p.2)).map (fun p => p.1)
  if idxs.length ≤ keep then 0 else idxs.getD (idxs.length - keep) 0

def compactedNote (m : Message) : String :=
  "[compacted: " ++ Nat.repr m.content.data.length ++ " bytes]"

/-- Modelled from the spec: `ouroboros/context.compact_tool_history` is
imported at loop.py:19 but `context.py` is not under `src/`.  §4.4: keep the
last `keep_recent` (=4) tool rounds verbatim and replace earlier tool-result
contents with a one-line synthetic summary; only message *contents* are
rewritten, so the §3 pairing invariant is preserved. -/
def compact_tool_history (msgs : List Message) (keep_recent : Nat) : List Message :=
  let b := compactBoundary msgs keep_recent
  msgs.enum.map (fun p =>
    if p.2.role == Role.tool && decide (p.1 < b) then
      { p.2 with content := compactedNote p.2 }
    else p.2)

/-! ## The task loop (`run_llm_loop`, loop.py:155-398)

The LLM is an oracle script: each `llm.chat` attempt consumes one scripted
outcome (an exhausted script behaves like a failing call).  Tool handlers
are the oracle `execTool`; per-spec the source reassembles parallel results
by original index (`results[idx] = future.result()`), so both the parallel
and the sequential branch yield, in order, the i-th result for the i-th
call — modelled as an order-preserving map.  Owner-message injection is the
oracle `inject`, giving the messages drained from the in-flight queue at
each round. -/

structure ChatReply where
  content : Option String
  tool_calls : List ToolCall
  cost : ℚ
deriving DecidableEq, Repr

inductive ChatOutcome
  | fail
  | reply (rep : ChatReply)
deriving DecidableEq, Repr

/-- One `llm.chat` invocation as recorded for the trace: the round it was
made in, the model and reasoning effort passed, and whether tool schemas
were offered (`tools=None` on the budget-closure call). -/
structure CallRec where
  round : Nat
  model : String
  effort : String
  withTools : Bool
deriving DecidableEq, Repr

/-- The retry loop around `llm.chat` (loop.py:249-281): up to `k` attempts,
stopping at the first success; every attempt is recorded. -/
def attemptChat (r : Nat) (model effort : String) (withTools : Bool) :
    Nat → List ChatOutcome → Option ChatReply × List ChatOutcome × List CallRec
  | 0, script => (none, script, [])
  | Nat.succ k, script =>
    match script with
    | [] =>
      let out := attemptChat r model effort withTools k []
      (out.1, out.2.1, ⟨r, model, effort, withTools⟩ :: out.2.2)
    | ChatOutcome.fail :: rest =>
      let out := attemptChat r model effort withTools k rest
      (out.1, out.2.1, ⟨r, model, effort, withTools⟩ :: out.2.2)
    | ChatOutcome.reply rep :: rest => (some rep, rest, [⟨r, model, effort, withTools⟩])

structure LoopCfg where
  profiles : String → ModelProfile
  codeTools : List String
  execTool : ToolCall → String
  inject : Nat → List String
  budget_remaining : Option ℚ

/-- The fields of the per-call dict built by `_execute_single_tool` /
`_execute_with_timeout` (loop.py:41-152) that the loop consumes.  Handler
exceptions and timeouts both surface as result strings starting with "⚠️",
which is exactly the `is_error` test (loop.py:91). -/
structure ToolExec where
  tool_call_id : String
  fn_name : String
  result : String
  is_error : Bool
  is_code_tool : Bool
deriving DecidableEq, Repr

def execCall (cfg : LoopCfg) (tc : ToolCall) : ToolExec :=
  let result := cfg.execTool tc
  { tool_call_id := tc.id,
    fn_name := tc.name,
    result := result,
    is_error := strStarts result "⚠️",
    is_code_tool := cfg.codeTools.contains tc.name }

/-- The `can_parallel` condition (loop.py:309-315). -/
def can_parallel (tcs : List ToolCall) : Bool :=
  decide (1 < tcs.length) &&
    tcs.all (fun tc => READ_ONLY_PARALLEL_TOOLS.contains tc.name)

structure BatchRec where
  calls : List ToolCall
  parallel : Bool
  workers : Option Nat
  results : List ToolExec
deriving Repr

/-- One round's tool batch (loop.py:308-336).  The parallel branch uses
`min(n, 8)` workers and collects `results[idx]` by original index; the
sequential branch is a list comprehension in call order. -/
def runBatch (cfg : LoopCfg) (tcs : List ToolCall) : BatchRec :=
  let par := can_parallel tcs
  { calls := tcs,
    parallel := par,
    workers := if par then some (min tcs.length 8) else none,
    results := tcs.map (execCall cfg) }

/-- Tool-result messages appended in original call order (loop.py:339-357). -/
def toolResultMessages (results : List ToolExec) : List Message :=
  results.map (fun e => toolMsg e.tool_call_id (truncate_tool_result e.result))

/-- The closure `_maybe_raise_effort` (loop.py:189-193). -/
def maybe_raise_effort (active target : String) : String :=
  let t := normalize_reasoning_effort target active
  if reasoning_rank active < reasoning_rank t then t else active

/-- The closure `_switch_to_code_profile` (loop.py:195-200); Python's
`max(a, b, key=rank)` returns the first argument on ties. -/
def switch_to_code_profile (cfg : LoopCfg) (model effort : String) : String × String :=
  let code := cfg.profiles "code_task"
  if code.model ≠ model ∨ reasoning_rank effort < reasoning_rank code.effort then
    (code.model,
     if reasoning_rank effort < reasoning_rank code.effort then code.effort else effort)
  else (model, effort)

/-- Error accounting (loop.py:369-372): 2 errors in a round raise effort to
`high`, 4 to `xhigh`. -/
def error_escalation (eff : String) (errs : Nat) : String :=
  let e1 := if 2 ≤ errs then maybe_raise_effort eff "high" else eff
  if 4 ≤ errs then maybe_raise_effort e1 "xhigh" else e1

def selfCheckMsg (r : Nat) (cost : ℚ) : String :=
  "[Self-check] " ++ Nat.repr r ++ " rounds, $" ++ reprStr cost ++
    " spent. Assess progress. If stuck, change approach."

def budgetFinishReason (cost b : ℚ) : String :=
  "Задача потратила $" ++ reprStr cost ++ " (>50% от остатка $" ++ reprStr b ++
    "). Бюджет исчерпан."

def budgetLimitMsg (cost b : ℚ) : String :=
  "[BUDGET LIMIT] " ++ budgetFinishReason cost b ++ " Дай финальный ответ сейчас."

def budgetNudgeMsg (cost b : ℚ) : String :=
  "[INFO] Задача потратила $" ++ reprStr cost ++ " из $" ++ reprStr b ++
    ". Если можешь — завершай."

def llmFailText : String :=
  "⚠️ Не удалось получить ответ от модели после 3 попыток."

structure GuardOut where
  stop : Option String
  messages : List Message
  cost : ℚ
  script : List ChatOutcome
  calls : List CallRec

/-- The budget guard at the end of each tool round (loop.py:374-395).
`t = task_cost / remaining` when the remaining budget is positive, else 1
(forced closure).  Over 50%: append the `[BUDGET LIMIT]` system message and
make one final `llm.chat` call with `tools=None` (a failing final call falls
back to the finish-reason text with no usage added).  Between 30% and 50% on
a round divisible by 10: append the soft nudge and continue. -/
def budget_guard (r : Nat) (model eff : String) (msgs : List Message) (cost : ℚ) :
    Option ℚ → List ChatOutcome → GuardOut
  | none, script => ⟨none, msgs, cost, script, []⟩
  | some b, script =>
    let t : ℚ := if 0 < b then cost / b else 1
    if 1 / 2 < t then
      let msgs' := msgs ++ [systemMsg (budgetLimitMsg cost b)]
      match attemptChat r model eff false 1 script with
      | (some rep, script', recs) =>
        ⟨some (if (rep.content.getD "") = "" then budgetFinishReason cost b
               else rep.content.getD ""),
         msgs', cost + rep.cost, script', recs⟩
      | (none, script', recs) => ⟨some (budgetFinishReason cost b), msgs', cost, script', recs⟩
    else if 3 / 10 < t ∧ r % 10 = 0 then
      ⟨none, msgs ++ [systemMsg (budgetNudgeMsg cost b)], cost, script, []⟩
    else ⟨none, msgs, cost, script, []⟩

structure LoopSt where
  messages : List Message
  activeModel : String
  activeEffort : String
  cost : ℚ
  round : Nat

/-- Steps a–d of a round (loop.py:206-244): drain injected owner messages,
append the 20-round self-check, escalate effort for long tasks, compact
old tool history. -/
def roundPrep (cfg : LoopCfg) (st : LoopSt) : List Message × String :=
  let r := st.round + 1
  let msgs1 := st.messages ++ (cfg.inject r).map userMsg
  let msgs2 :=
    if 1 < r ∧ r % 20 = 0 then msgs1 ++ [systemMsg (selfCheckMsg r st.cost)] else msgs1
  let eff1 := if 5 ≤ r then maybe_raise_effort st.activeEffort "high" else st.activeEffort
  let eff2 := if 10 ≤ r then maybe_raise_effort eff1 "xhigh" else eff1
  let msgs3 := if 1 < r then compact_tool_history msgs2 4 else msgs2
  (msgs3, eff2)

/-- Steps h–k of a round (loop.py:299-372): append the assistant message,
execute the batch, append tool results in original call order, switch to the
code profile after a code-mutating tool, escalate effort on errors. -/
def roundTools (cfg : LoopCfg) (model eff : String) (msgs : List Message)
    (rep : ChatReply) : List Message × String × String :=
  let batch := runBatch cfg rep.tool_calls
  let msgs' := msgs ++ [assistantMsg (rep.content.getD "") rep.tool_calls] ++
    toolResultMessages batch.results
  let sawCode := batch.results.any (fun e => e.is_code_tool)
  let errs := (batch.results.filter (fun e => e.is_error)).length
  let me :=
    if sawCode then switch_to_code_profile cfg model eff else (model, eff)
  (msgs', me.1, error_escalation me.2 errs)

inductive RoundOut
  | finalAnswer (content : String) (replyCalls : List ToolCall)
  | llmFail (text : String)
  | budgetStop (text : String)
  | next
deriving DecidableEq, Repr

/-- One iteration of the `while True` loop of `run_llm_loop`. -/
def runRound (cfg : LoopCfg) (st : LoopSt) (script : List ChatOutcome) :
    RoundOut × LoopSt × List ChatOutcome × List CallRec :=
  let r := st.round + 1
  let pe := roundPrep cfg st
  match attemptChat r st.activeModel pe.2 true 3 script with
  | (none, script', recs) =>
    (RoundOut.llmFail llmFailText, ⟨pe.1, st.activeModel, pe.2, st.cost, r⟩, script', recs)
  | (some rep, script', recs) =>
    let cost1 := st.cost + rep.cost
    if rep.tool_calls.isEmpty then
      (RoundOut.finalAnswer (rep.content.getD "") rep.tool_calls,
       ⟨pe.1, st.activeModel, pe.2, cost1, r⟩, script', recs)
    else
      let tm := roundTools cfg st.activeModel pe.2 pe.1 rep
      let g := budget_guard r tm.2.1 tm.2.2 tm.1 cost1 cfg.budget_remaining script'
      match g.stop with
      | some txt =>
        (RoundOut.budgetStop txt, ⟨g.messages, tm.2.1, tm.2.2, g.cost, r⟩, g.script,
         recs ++ g.calls)
      | none =>
        (RoundOut.next, ⟨g.messages, tm.2.1, tm.2.2, g.cost, r⟩, g.script, recs ++ g.calls)

inductive LoopExit
  | answer (content : String) (replyCalls : List ToolCall)
  | llmFailure (text : String)
  | budgetClosed (text : String)
  | fuelOut
deriving DecidableEq, Repr

structure LoopResult where
  exit : LoopExit
  messages : List Message
  calls : List CallRec
  cost : ℚ
  model : String
  effort : String

def runLoopAux (cfg : LoopCfg) : Nat → LoopSt → List ChatOutcome → List CallRec → LoopResult
  | 0, st, _, acc =>
    ⟨LoopExit.fuelOut, st.messages, acc, st.cost, st.activeModel, st.activeEffort⟩
  | Nat.succ fuel, st, script, acc =>
    match runRound cfg st script with
    | (RoundOut.finalAnswer c tcs, st', _, recs) =>
      ⟨LoopExit.answer c tcs, st'.messages, acc ++ recs, st'.cost, st'.activeModel,
       st'.activeEffort⟩
    | (RoundOut.llmFail t, st', _, recs) =>
      ⟨LoopExit.llmFailure t, st'.messages, acc ++ recs, st'.cost, st'.activeModel,
       st'.activeEffort⟩
    | (RoundOut.budgetStop t, st', _, recs) =>
      ⟨LoopExit.budgetClosed t, st'.messages, acc ++ recs, st'.cost, st'.activeModel,
       st'.activeEffort⟩
    | (RoundOut.next, st', script', recs) => runLoopAux cfg fuel st' script' (acc ++ recs)

/-- Profile selection at loop entry (loop.py:177-180). -/
def initLoopSt (cfg : LoopCfg) (task_type : String) (messages : List Message) : LoopSt :=
  let p := cfg.profiles (select_task_profile task_type)
  ⟨messages, p.model, p.effort, 0, 0⟩

/-- `loop.run_llm_loop` (loop.py:155-398), driven by `fuel` iterations of the
`while True` body. -/
def run_llm_loop (cfg : LoopCfg) (task_type : String) (messages : List Message)
    (fuel : Nat) (script : List ChatOutcome) : LoopResult :=
  runLoopAux cfg fuel (initLoopSt cfg task_type messages) script []

/-! ## ouroboros/agent.py — path sanitisation and write-and-commit -/

def replaceBackslash (s : String) : String :=
  ⟨s.data.map (fun c => if c = '\\' then '/' else c)⟩

def lstripSlash (s : String) : String := ⟨s.data.dropWhile (fun c => c = '/')⟩

/-- `PurePosixPath(p).parts` for a relative path: split on `/`, drop empty
components and single dots (pathlib collapses both; `..` is kept). -/
def pure_posix_parts (s : String) : List String :=
  ((splitOnChar '/' s.data).map (fun l => String.mk l)).filter
    (fun c => c != "" && c != ".")

/-- `agent.safe_relpath` (agent.py:64-68): replace backslashes with slashes,
strip leading slashes, and reject any path whose POSIX parts contain `..`
(raising `ValueError`, modelled as `.error`). -/
def safe_relpath (p : String) : Except String String :=
  let q := lstripSlash (replaceBackslash p)
  if (pure_posix_parts q).contains ".." then .error "Path traversal is not allowed."
  else .ok q

/-- Joining a sanitised relative path onto a root and normalising: `..`
components pop, others push (the semantics of `Path.resolve` on the joined
path, ignoring symlinks). -/
def resolve_under (root : List String) (rel : String) : List String :=
  (pure_posix_parts rel).foldl
    (fun acc c => if c = ".." then acc.dropLast else acc ++ [c]) root

inductive GitOp
  | acquireLock
  | checkout
  | writeFile
  | gitAdd
  | gitCommit
  | gitPush
  | releaseLock
deriving DecidableEq, Repr

def GIT_STEPS : List GitOp :=
  [GitOp.checkout, GitOp.writeFile, GitOp.gitAdd, GitOp.gitCommit, GitOp.gitPush]

/-- Oracle for which external step of the write-and-commit tool fails
(subprocess git failures and filesystem write failures). -/
structure GitWorld where
  checkout_fails : Bool := false
  write_fails : Bool := false
  add_fails : Bool := false
  commit_fails : Bool := false
  push_fails : Bool := false
deriving DecidableEq, Repr

def pathBlocked (path : String) : Bool :=
  match safe_relpath path with
  | Except.error _ => true
  | Except.ok _ => false

/-- `OuroborosAgent._tool_repo_write_commit` (agent.py:981-1023), flattening
the sequential try/except chain over the failure oracle.  The empty commit
message is rejected before the lock is taken; the lock is acquired before
the first git operation and the `finally` releases it on every exit path.
A `ValueError` from `safe_relpath` inside `env.repo_path` is caught by the
write step's handler (step 2), so it surfaces as `FILE_WRITE_ERROR`.
Exception texts interpolated from Python exceptions are elided as "git
error"/"write error". -/
def repo_write_commit (w : GitWorld) (branch_dev path _content commit_message : String) :
    String × List GitOp :=
  if sTrim commit_message = "" then
    ("⚠️ ERROR: commit_message must be non-empty.", [])
  else if w.checkout_fails then
    ("⚠️ GIT_ERROR (checkout " ++ branch_dev ++ "): git error",
     [GitOp.acquireLock, GitOp.checkout, GitOp.releaseLock])
  else if w.write_fails || pathBlocked path then
    ("⚠️ FILE_WRITE_ERROR (" ++ path ++ "): write error",
     [GitOp.acquireLock, GitOp.checkout, GitOp.writeFile, GitOp.releaseLock])
  else if w.add_fails then
    ("⚠️ GIT_ERROR (add " ++ path ++ "): git error",
     [GitOp.acquireLock, GitOp.checkout, GitOp.writeFile, GitOp.gitAdd, GitOp.releaseLock])
  else if w.commit_fails then
    ("⚠️ GIT_ERROR (commit): git error\nFile was written and staged but not committed.",
     [GitOp.acquireLock, GitOp.checkout, GitOp.writeFile, GitOp.gitAdd, GitOp.gitCommit,
      GitOp.releaseLock])
  else if w.push_fails then
    ("⚠️ GIT_ERROR (push): git error\nCommitted locally but NOT pushed.",
     [GitOp.acquireLock, GitOp.checkout, GitOp.writeFile, GitOp.gitAdd, GitOp.gitCommit,
      GitOp.gitPush, GitOp.releaseLock])
  else
    ("OK: committed and pushed to " ++ branch_dev ++ ": " ++ commit_message,
     [GitOp.acquireLock, GitOp.checkout, GitOp.writeFile, GitOp.gitAdd, GitOp.gitCommit,
      GitOp.gitPush, GitOp.releaseLock])

/-! ## supervisor/main.py — owner identity and authorisation -/

structure SupState where
  owner_id : Option Int := none
  owner_chat_id : Option Int := none
deriving DecidableEq, Repr

/-- Python truthiness of a persisted id (`st.get("owner_id")` is falsy when
absent or 0). -/
def truthyId : Option Int → Bool
  | none => false
  | some v => v ≠ 0

/-- `_set_owner_if_needed` (supervisor/main.py:180-191). -/
def set_owner_if_needed (st : SupState) (from_id chat_id : Int) : SupState :=
  let st1 := if truthyId st.owner_id then st else { st with owner_id := some from_id }
  if truthyId st1.owner_chat_id then st1 else { st1 with owner_chat_id := some chat_id }

/-- `_is_owner` (supervisor/main.py:194-197). -/
def is_owner (st : SupState) (from_id : Int) : Bool :=
  match st.owner_id with
  | none => false
  | some v => v ≠ 0 && v = from_id

/-- Whether `_handle_command` (supervisor/main.py:200-245) handles the text
(and so short-circuits dispatch). -/
def handles_command (text : String) : Bool :=
  let cmd := sTrim text
  if !strStarts cmd "/" then false
  else strStarts cmd "/status" || strStarts cmd "/queue" || strStarts cmd "/cancel" ||
    strStarts cmd "/evolve" || strStarts cmd "/help" || strStarts cmd "/start"

structure TgUpdate where
  has_message : Bool := true
  from_id : Int := 0
  chat_id : Int := 0
  text : String := ""
  caption : String := ""
  has_image : Bool := false
deriving DecidableEq, Repr

inductive SupAction
  | sendMessage (chat_id : Int) (text : String)
  | commandReply (chat_id : Int)
  | dispatch (chat_id : Int) (text : String)
deriving DecidableEq, Repr

def isDispatch : SupAction → Bool
  | SupAction.dispatch _ _ => true
  | _ => false

/-- `_process_telegram_update` (supervisor/main.py:282-319).  Command replies
and dispatch (thread start plus `owner_message_injected` event) are
abstracted into single actions; the timestamp write is not modelled. -/
def process_telegram_update (st : SupState) (u : TgUpdate) : SupState × List SupAction :=
  if !u.has_message then (st, [])
  else if u.from_id = 0 then (st, [])
  else if u.chat_id = 0 then (st, [])
  else
    let st1 := set_owner_if_needed st u.from_id u.chat_id
    if !is_owner st1 u.from_id then (st1, [SupAction.sendMessage u.chat_id "Not authorized"])
    else
      let text := sTrim u.text
      if text ≠ "" ∧ handles_command text then (st1, [SupAction.commandReply u.chat_id])
      else
        let dispatch_text :=
          if text ≠ "" then text
          else if sTrim u.caption ≠ "" then sTrim u.caption
          else if u.has_image then "(image attached)" else ""
        if dispatch_text = "" then (st1, [])
        else (st1, [SupAction.dispatch u.chat_id dispatch_text])

/-! ## Auxiliary notions used by the statements -/

def exOk {ε α : Type} : Except ε α → Bool
  | Except.ok _ => true
  | Except.error _ => false

/-- The structural skeleton of a message: everything `wellPairedAux`
inspects (compaction rewrites only contents, so it preserves this). -/
def skel (m : Message) : Role × List ToolCall × Option String :=
  (m.role, m.tool_calls, m.tool_call_id)

def rankEff (c : CallRec) : Nat := reasoning_rank c.effort

/-- `monoFrom lo l hi`: the list `l` is non-decreasing, bounded below by
`lo` at its head and by `hi` above its last element. -/
def monoFrom : Nat → List Nat → Nat → Prop
  | lo, [], hi => lo ≤ hi
  | lo, x :: xs, hi => lo ≤ x ∧ monoFrom x xs hi

/-- No explicit provider preference is in force: `OUROBOROS_LLM_PROVIDER`
is unset, `auto`, or not a known provider name. -/
def prefInactive (env : PEnv) : Prop :=
  sLower (sTrim env.ouroboros_llm_provider) = "" ∨
  sLower (sTrim env.ouroboros_llm_provider) = "auto" ∨
  sLower (sTrim env.ouroboros_llm_provider) ∉ PROVIDERS

/-! ## Concrete inputs used by witnesses and counterexamples -/

def cfg0 : LoopCfg :=
  { profiles := fun name =>
      if name = "code_task" then ⟨"code-model", "high"⟩
      else if name = "analysis" then ⟨"analysis-model", "medium"⟩
      else ⟨"default-model", "medium"⟩,
    codeTools := ["repo_write_commit"],
    execTool := fun _ => "ok",
    inject := fun _ => [],
    budget_remaining := none }

def tcRead : ToolCall := ⟨"call_1", "repo_read", "{}"⟩

def tcList : ToolCall := ⟨"call_2", "repo_list", "{}"⟩

def bigStr : String := ⟨List.replicate 3001 'a'⟩

def envOR : PEnv := { openrouter_api_key := "sk-or-key" }

def envPref : PEnv :=
  { ouroboros_llm_provider := "zai", openrouter_api_key := "k", zai_api_key := "z" }

def gitOk : GitWorld := {}

def stOwned : SupState := { owner_id := some 7, owner_chat_id := some 7 }

def updStranger : TgUpdate := { from_id := 8, chat_id := 99, text := "hello" }

/-! ## Shared helper lemmas -/

theorem string_data_append (a b : String) : (a ++ b).data = a.data ++ b.data := rfl

theorem contains_iff_mem {l : List String} {a : String} : l.contains a = true ↔ a ∈ l := by
  induction l with
  | nil => simp [List.contains, List.elem]
  | cons b t ih =>
    simp only [List.contains, List.elem] at *
    by_cases h : a = b
    · subst h; simp
    · have hb : (a == b) = false := by simpa using h
      simp [hb, ih, h]

theorem bigStr_len : bigStr.data.length = 3001 := by
  rw [show bigStr.data = List.replicate 3001 'a' from rfl, List.length_replicate]

theorem truncMarker_len (n : Nat) :
    (truncMarker n).data.length = 28 + (Nat.repr n).data.length := by
  have h1 : ("\n... (truncated from " : String).data.length = 21 := by decide
  have h2 : (" chars)" : String).data.length = 7 := by decide
  simp only [truncMarker, string_data_append, List.length_append, h1, h2]
  omega

theorem truncate_len_of_long {s : String} (h : 3000 < s.data.length) :
    (truncate_tool_result s).data.length = 3028 + (Nat.repr s.data.length).data.length := by
  unfold truncate_tool_result
  rw [if_neg (by omega)]
  rw [show ((⟨s.data.take 3000⟩ : String) ++ truncMarker s.data.length).data
        = s.data.take 3000 ++ (truncMarker s.data.length).data from rfl]
  rw [List.length_append, List.length_take, truncMarker_len]
  omega

/-- C5 (amended): the tool-result string appended to the conversation is the
original when it has at most 3000 characters; otherwise it is the first 3000
characters plus a marker carrying the original length, for a total of
`3028 + digits(original length)` characters — slightly above 3000, not
"≤ 3000 bytes" as claimed. -/
theorem tool_result_truncation_amended (s : String) :
    (s.data.length ≤ 3000 → truncate_tool_result s = s) ∧
    (3000 < s.data.length →
      truncate_tool_result s = (⟨s.data.take 3000⟩ : String) ++ truncMarker s.data.length ∧
      (truncate_tool_result s).data.length = 3028 + (Nat.repr s.data.length).data.length) ∧
    (truncate_tool_result s).data.length ≤ 3028 + (Nat.repr s.data.length).data.length := by
  refine ⟨fun h => ?_, fun h => ?_, ?_⟩
  · unfold truncate_tool_result
    rw [if_pos h]
  · refine ⟨?_, truncate_len_of_long h⟩
    unfold truncate_tool_result
    rw [if_neg (by omega)]
  · by_cases h : s.data.length ≤ 3000
    · have he : truncate_tool_result s = s := by
        unfold truncate_tool_result
        rw [if_pos h]
      rw [he]
      omega
    · rw [truncate_len_of_long (by omega)]

/-- C5 counterexample: a 3001-character tool result is appended as a string
of more than 3000 characters (3000 kept plus the truncation marker), so the
claimed "at most 3000 bytes" bound fails (the string is pure ASCII, so
characters and UTF-8 bytes coincide). -/
theorem tool_result_truncation_claim_false :
    bigStr.data.length = 3001 ∧ 3000 < (truncate_tool_result bigStr).data.length := by
  have hlen : bigStr.data.length = 3001 := bigStr_len
  refine ⟨hlen, ?_⟩
  rw [truncate_len_of_long (by omega)]
  omega

/-- Witness for C5's amended theorem at concrete inputs. -/
theorem tool_result_truncation_amended_witness :
    truncate_tool_result "abc" = "abc" ∧
    (truncate_tool_result bigStr).data.length
      = 3028 + (Nat.repr bigStr.data.length).data.length :=
  ⟨(tool_result_truncation_amended "abc").1 (by decide),
   ((tool_result_truncation_amended bigStr).2.1 (by rw [bigStr_len]; omega)).2⟩

/-! ## C10 — path sanitisation -/

theorem foldl_no_dotdot :
    ∀ (l : List String) (root : List String), (∀ c ∈ l, c ≠ "..") →
      l.foldl (fun acc c => if c = ".." then acc.dropLast else acc ++ [c]) root = root ++ l := by
  intro l
  induction l with
  | nil => simp
  | cons c t ih =>
    intro root h
    simp only [List.foldl_cons]
    rw [if_neg (h c (by simp))]
    rw [ih _ (fun x hx => h x (by simp [hx]))]
    simp

/-- C10: a repo/drive tool path whose normalized POSIX parts contain `..` is
rejected by `safe_relpath` with a `ValueError` (surfaced by the tool loop as
an error string); an accepted path has no `..` component, so joining it
under any root and normalising stays below that root. -/
theorem safe_relpath_spec (p : String) :
    ((pure_posix_parts (lstripSlash (replaceBackslash p))).contains ".." = true →
      safe_relpath p = Except.error "Path traversal is not allowed.") ∧
    (∀ q, safe_relpath p = Except.ok q →
      (pure_posix_parts q).contains ".." = false ∧
      ∀ root, resolve_under root q = root ++ pure_posix_parts q ∧
        root <+: resolve_under root q) := by
  constructor
  · intro h
    unfold safe_relpath
    rw [if_pos h]
  · intro q hq
    unfold safe_relpath at hq
    by_cases h : (pure_posix_parts (lstripSlash (replaceBackslash p))).contains ".." = true
    · rw [if_pos h] at hq
      exact absurd hq (by simp)
    · rw [if_neg h] at hq
      have hq' : lstripSlash (replaceBackslash p) = q := Except.ok.inj hq
      subst hq'
      have hb : (pure_posix_parts (lstripSlash (replaceBackslash p))).contains ".." = false :=
        Bool.not_eq_true _ ▸ eq_false_of_ne_true h
      have hmem : ∀ c ∈ pure_posix_parts (lstripSlash (replaceBackslash p)), c ≠ ".." := by
        intro c hc hcc
        subst hcc
        have hcon := contains_iff_mem.mpr hc
        rw [hb] at hcon
        exact absurd hcon (by decide)
      refine ⟨hb, fun root => ?_⟩
      have hres : resolve_under root (lstripSlash (replaceBackslash p))
          = root ++ pure_posix_parts (lstripSlash (replaceBackslash p)) :=
        foldl_no_dotdot _ root hmem
      exact ⟨hres, by rw [hres]; exact List.prefix_append _ _⟩

/-- Witness for C10 at concrete inputs: `"a/../b"` is rejected, `"a/b"` is
accepted and resolves below the root. -/
theorem safe_relpath_spec_witness :
    safe_relpath "a/../b" = Except.error "Path traversal is not allowed." ∧
    (pure_posix_parts "a/b").contains ".." = false ∧
    resolve_under ["r"] "a/b" = ["r"] ++ pure_posix_parts "a/b" ∧
    ["r"] <+: resolve_under ["r"] "a/b" := by
  have h := (safe_relpath_spec "a/b").2 "a/b" (by rfl)
  exact ⟨(safe_relpath_spec "a/../b").1 (by decide), h.1, (h.2 ["r"]).1, (h.2 ["r"]).2⟩

/-! ## C7 — provider resolution -/

theorem resolve_by_preference_inactive (env : PEnv) (m : String) (h : prefInactive env) :
    resolve_by_preference env m = Except.ok none := by
  unfold resolve_by_preference
  unfold prefInactive at h
  by_cases h0 : sLower (sTrim env.ouroboros_llm_provider) = "" ∨
      sLower (sTrim env.ouroboros_llm_provider) = "auto"
  · rw [if_pos h0]
  · have hnp : sLower (sTrim env.ouroboros_llm_provider) ∉ PROVIDERS := by tauto
    rw [if_neg h0, if_neg hnp]

theorem resolve_by_preference_active (env : PEnv) (m : String)
    (hin : sLower (sTrim env.ouroboros_llm_provider) ∈ PROVIDERS)
    (hk : get_key env (sLower (sTrim env.ouroboros_llm_provider)) ≠ "") :
    ∃ em, resolve_by_preference env m
      = Except.ok (some ⟨sLower (sTrim env.ouroboros_llm_provider), em,
          get_key env (sLower (sTrim env.ouroboros_llm_provider)),
          get_base_url env (sLower (sTrim env.ouroboros_llm_provider))⟩) := by
  have hne := (by decide : ∀ q ∈ PROVIDERS, ¬(q = "" ∨ q = "auto")) _ hin
  unfold resolve_by_preference
  rw [if_neg hne, if_pos hin, if_neg hk]
  exact ⟨_, rfl⟩

theorem exists_ok_of_exOk {ε α : Type} {e : Except ε α} (h : exOk e = true) :
    ∃ r, e = Except.ok r := by
  cases e with
  | ok r => exact ⟨r, rfl⟩
  | error x => exact absurd h (by simp [exOk])

theorem resolve_fallback_aux_ok (env : PEnv) (m : String) :
    ∀ l : List String, (∃ p ∈ l, get_key env p ≠ "") →
      exOk (resolve_fallback_aux env m l) = true := by
  intro l
  induction l with
  | nil =>
    rintro ⟨p, hp, _⟩
    cases hp
  | cons q t ih =>
    rintro ⟨p, hp, hk⟩
    by_cases hq : get_key env q ≠ ""
    · simp only [resolve_fallback_aux]
      rw [if_pos hq]
      rfl
    · simp only [resolve_fallback_aux]
      rw [if_neg hq]
      refine ih ⟨p, ?_, hk⟩
      rcases List.mem_cons.mp hp with rfl | hpt
      · exact absurd hk hq
      · exact hpt

theorem resolve_fallback_ok (env : PEnv) (m : String)
    (h : get_key env "openrouter" ≠ "" ∨ get_key env "openai" ≠ "" ∨
      get_key env "zai" ≠ "" ∨ get_key env "opencode" ≠ "") :
    ∃ r, resolve_fallback env m = Except.ok r := by
  refine exists_ok_of_exOk (resolve_fallback_aux_ok env m FALLBACK_ORDER ?_)
  rcases h with h | h | h | h
  · exact ⟨"openrouter", by decide, h⟩
  · exact ⟨"openai", by decide, h⟩
  · exact ⟨"zai", by decide, h⟩
  · exact ⟨"opencode", by decide, h⟩

/-- C7 (amended): provider resolution is first-match-wins in the order
(1) explicit preference selector when it names a known provider whose key is
set, (2) model-id prefix matching, (3) the fixed fallback order; and a
*nonempty* unknown model id (no prefix match with a usable key, not the
special codex model) resolves to a fallback provider rather than failing,
provided no explicit preference is active and at least one of the four
fallback providers has a key.  (The empty model id and a preference naming
a provider with a missing key are hard errors — see the counterexample.) -/
theorem provider_resolution_amended (env : PEnv) (m : String) :
    (sTrim m ≠ "" → sLower (sTrim env.ouroboros_llm_provider) ∈ PROVIDERS →
      get_key env (sLower (sTrim env.ouroboros_llm_provider)) ≠ "" →
      ∃ r, resolve env m = Except.ok r ∧
        r.provider = sLower (sTrim env.ouroboros_llm_provider)) ∧
    (sTrim m ≠ "" → prefInactive env →
      ∀ r, resolve_by_model_pfx env (sTrim m) = some r → resolve env m = Except.ok r) ∧
    (sTrim m ≠ "" → prefInactive env →
      resolve_by_model_pfx env (sTrim m) = none →
      sLower (sTrim m) ≠ "gpt-5.3-codex" →
      (get_key env "openrouter" ≠ "" ∨ get_key env "openai" ≠ "" ∨
        get_key env "zai" ≠ "" ∨ get_key env "opencode" ≠ "") →
      ∃ r, resolve env m = Except.ok r ∧
        resolve env m = resolve_fallback env (sTrim m)) := by
  refine ⟨fun hm hin hk => ?_, fun hm hpa r hr => ?_, fun hm hpa hpfx hcx hkeys => ?_⟩
  · obtain ⟨em, hpref⟩ := resolve_by_preference_active env (sTrim m) hin hk
    have hres : resolve env m
        = Except.ok ⟨sLower (sTrim env.ouroboros_llm_provider), em,
            get_key env (sLower (sTrim env.ouroboros_llm_provider)),
            get_base_url env (sLower (sTrim env.ouroboros_llm_provider))⟩ := by
      unfold resolve
      rw [if_neg hm, hpref]
    exact ⟨_, hres, rfl⟩
  · have hpref := resolve_by_preference_inactive env (sTrim m) hpa
    unfold resolve
    rw [if_neg hm, hpref, hr]
  · have hpref := resolve_by_preference_inactive env (sTrim m) hpa
    have hred : resolve env m = resolve_fallback env (sTrim m) := by
      unfold resolve
      rw [if_neg hm, hpref, hpfx, if_neg hcx]
    obtain ⟨r, hr⟩ := resolve_fallback_ok env (sTrim m) hkeys
    exact ⟨r, by rw [hred, hr], hred⟩

/-- C7 counterexample: with a provider key configured (OpenRouter), the
invalid (empty) model id does not fall back — `resolve` raises
`ValueError("Model name cannot be empty")`. -/
theorem provider_resolution_claim_false :
    get_key envOR "openrouter" ≠ "" ∧
    resolve envOR "" = Except.error "Model name cannot be empty" :=
  ⟨by decide, rfl⟩

/-- Witness for C7's amended theorem: an explicit `zai` preference wins over
the `anthropic/` prefix; an unknown nonempty model id resolves via the
fallback order. -/
theorem provider_resolution_amended_witness :
    (∃ r, resolve envPref "anthropic/claude-sonnet-4.6" = Except.ok r ∧
      r.provider = sLower (sTrim envPref.ouroboros_llm_provider)) ∧
    (∃ r, resolve envOR "mystery-model-xyz" = Except.ok r ∧
      resolve envOR "mystery-model-xyz"
        = resolve_fallback envOR (sTrim "mystery-model-xyz")) := by
  constructor
  · exact (provider_resolution_amended envPref "anthropic/claude-sonnet-4.6").1
      (by decide) (by decide) (by decide)
  · exact (provider_resolution_amended envOR "mystery-model-xyz").2.2
      (by decide) (Or.inl rfl) (by decide) (by decide) (Or.inl (by decide))

/-! ## C8 — write-and-commit step sequence -/

/-- C8: the write-and-commit tool rejects an empty commit message before any
git operation; otherwise it acquires the git lock first and releases it on
every exit path, attempts checkout → write → add → commit → push in order,
short-circuits at the first failing step, and returns an error string naming
that step (or the OK string exactly when all five steps ran). -/
theorem repo_write_commit_spec (w : GitWorld) (bd path content msg : String) :
    (sTrim msg = "" →
      repo_write_commit w bd path content msg
        = ("⚠️ ERROR: commit_message must be non-empty.", [])) ∧
    (sTrim msg ≠ "" →
      (repo_write_commit w bd path content msg).2.head? = some GitOp.acquireLock ∧
      (repo_write_commit w bd path content msg).2.getLast? = some GitOp.releaseLock ∧
      ∃ k, 1 ≤ k ∧ k ≤ 5 ∧
        (repo_write_commit w bd path content msg).2
          = GitOp.acquireLock :: (GIT_STEPS.take k ++ [GitOp.releaseLock])) ∧
    (sTrim msg ≠ "" → w.checkout_fails = true →
      repo_write_commit w bd path content msg
        = ("⚠️ GIT_ERROR (checkout " ++ bd ++ "): git error",
           [GitOp.acquireLock, GitOp.checkout, GitOp.releaseLock])) ∧
    (sTrim msg ≠ "" → w.checkout_fails = false →
      (w.write_fails || pathBlocked path) = true →
      repo_write_commit w bd path content msg
        = ("⚠️ FILE_WRITE_ERROR (" ++ path ++ "): write error",
           [GitOp.acquireLock, GitOp.checkout, GitOp.writeFile, GitOp.releaseLock])) ∧
    (sTrim msg ≠ "" → w.checkout_fails = false →
      (w.write_fails || pathBlocked path) = false → w.add_fails = true →
      repo_write_commit w bd path content msg
        = ("⚠️ GIT_ERROR (add " ++ path ++ "): git error",
           [GitOp.acquireLock, GitOp.checkout, GitOp.writeFile, GitOp.gitAdd,
            GitOp.releaseLock])) ∧
    (sTrim msg ≠ "" → w.checkout_fails = false →
      (w.write_fails || pathBlocked path) = false → w.add_fails = false →
      w.commit_fails = true →
      repo_write_commit w bd path content msg
        = ("⚠️ GIT_ERROR (commit): git error\nFile was written and staged but not committed.",
           [GitOp.acquireLock, GitOp.checkout, GitOp.writeFile, GitOp.gitAdd, GitOp.gitCommit,
            GitOp.releaseLock])) ∧
    (sTrim msg ≠ "" → w.checkout_fails = false →
      (w.write_fails || pathBlocked path) = false → w.add_fails = false →
      w.commit_fails = false → w.push_fails = true →
      repo_write_commit w bd path content msg
        = ("⚠️ GIT_ERROR (push): git error\nCommitted locally but NOT pushed.",
           [GitOp.acquireLock, GitOp.checkout, GitOp.writeFile, GitOp.gitAdd, GitOp.gitCommit,
            GitOp.gitPush, GitOp.releaseLock])) ∧
    (sTrim msg ≠ "" → w.checkout_fails = false →
      (w.write_fails || pathBlocked path) = false → w.add_fails = false →
      w.commit_fails = false → w.push_fails = false →
      repo_write_commit w bd path content msg
        = ("OK: committed and pushed to " ++ bd ++ ": " ++ msg,
           GitOp.acquireLock :: (GIT_STEPS ++ [GitOp.releaseLock]))) := by
  refine ⟨fun hm => ?_, fun hm => ?_, fun hm h1 => ?_, fun hm h1 h2 => ?_,
    fun hm h1 h2 h3 => ?_, fun hm h1 h2 h3 h4 => ?_, fun hm h1 h2 h3 h4 h5 => ?_,
    fun hm h1 h2 h3 h4 h5 => ?_⟩
  · unfold repo_write_commit
    rw [if_pos hm]
  · unfold repo_write_commit
    rw [if_neg hm]
    split_ifs with h1 h2 h3 h4 h5
    · exact ⟨rfl, rfl, 1, by omega, by omega, rfl⟩
    · exact ⟨rfl, rfl, 2, by omega, by omega, rfl⟩
    · exact ⟨rfl, rfl, 3, by omega, by omega, rfl⟩
    · exact ⟨rfl, rfl, 4, by omega, by omega, rfl⟩
    · exact ⟨rfl, rfl, 5, by omega, by omega, rfl⟩
    · exact ⟨rfl, rfl, 5, by omega, by omega, rfl⟩
  · unfold repo_write_commit
    rw [if_neg hm, if_pos h1]
  · unfold repo_write_commit
    rw [if_neg hm, if_neg (by simp [h1]), if_pos h2]
  · unfold repo_write_commit
    rw [if_neg hm, if_neg (by simp [h1]), if_neg (by simp [h2]), if_pos h3]
  · unfold repo_write_commit
    rw [if_neg hm, if_neg (by simp [h1]), if_neg (by simp [h2]), if_neg (by simp [h3]),
      if_pos h4]
  · unfold repo_write_commit
    rw [if_neg hm, if_neg (by simp [h1]), if_neg (by simp [h2]), if_neg (by simp [h3]),
      if_neg (by simp [h4]), if_pos h5]
  · unfold repo_write_commit
    rw [if_neg hm, if_neg (by simp [h1]), if_neg (by simp [h2]), if_neg (by simp [h3]),
      if_neg (by simp [h4]), if_neg (by simp [h5])]
    rfl

/-- Witness for C8 at a concrete input: with no failing step, all five git
steps run in order under the lock. -/
theorem repo_write_commit_spec_witness :
    repo_write_commit gitOk "dev" "file.txt" "content" "msg"
      = ("OK: committed and pushed to dev: msg",
         GitOp.acquireLock :: (GIT_STEPS ++ [GitOp.releaseLock])) :=
  (repo_write_commit_spec gitOk "dev" "file.txt" "content" "msg").2.2.2.2.2.2.2
    (by decide) rfl (by decide) rfl rfl rfl

/-! ## C9 — owner identity and authorisation -/

theorem set_owner_owner_id (st : SupState) (f c : Int) :
    (set_owner_if_needed st f c).owner_id
      = if truthyId st.owner_id then st.owner_id else some f := by
  cases h : truthyId st.owner_id with
  | true =>
    simp only [set_owner_if_needed, h, if_true]
    split <;> rfl
  | false =>
    simp only [set_owner_if_needed, h, Bool.false_eq_true, if_false]
    split <;> rfl

/-- C9: once an owner is persisted, any update from a different sender gets
exactly the reply "Not authorized" and no dispatch; a fresh runtime (no
truthy owner id) adopts the first observed sender id as owner, and a set
owner id is never changed by update processing. -/
theorem owner_authorization_spec (st : SupState) (u : TgUpdate)
    (hmsg : u.has_message = true) (hf : u.from_id ≠ 0) (hc : u.chat_id ≠ 0) :
    (truthyId st.owner_id = true → st.owner_id ≠ some u.from_id →
      (process_telegram_update st u).2 = [SupAction.sendMessage u.chat_id "Not authorized"] ∧
      ∀ a ∈ (process_telegram_update st u).2, isDispatch a = false) ∧
    (truthyId st.owner_id = false →
      (process_telegram_update st u).1.owner_id = some u.from_id) ∧
    (truthyId st.owner_id = true →
      (process_telegram_update st u).1.owner_id = st.owner_id) := by
  have hso : (set_owner_if_needed st u.from_id u.chat_id).owner_id
      = if truthyId st.owner_id then st.owner_id else some u.from_id :=
    set_owner_owner_id st u.from_id u.chat_id
  refine ⟨fun ht hne => ?_, fun ht => ?_, fun ht => ?_⟩
  · have hso' : (set_owner_if_needed st u.from_id u.chat_id).owner_id = st.owner_id := by
      rw [hso, if_pos ht]
    have hio : is_owner (set_owner_if_needed st u.from_id u.chat_id) u.from_id = false := by
      unfold is_owner
      rw [hso']
      rcases hv : st.owner_id with _ | v
      · rfl
      · have : v ≠ u.from_id := by
          intro hvv
          exact hne (by rw [hv, hvv])
        simp [this]
    unfold process_telegram_update
    rw [hmsg]
    simp only [Bool.not_true, Bool.false_eq_true, if_false, if_neg hf, if_neg hc, hio,
      Bool.not_false, if_true]
    exact ⟨by simp, by intro a ha; simp at ha; subst ha; rfl⟩
  · have hso' : (set_owner_if_needed st u.from_id u.chat_id).owner_id = some u.from_id := by
      rw [hso, if_neg (by simp [ht])]
    unfold process_telegram_update
    rw [hmsg]
    simp only [Bool.not_true, Bool.false_eq_true, if_false, if_neg hf, if_neg hc]
    split_ifs <;> exact hso'
  · have hso' : (set_owner_if_needed st u.from_id u.chat_id).owner_id = st.owner_id := by
      rw [hso, if_pos ht]
    unfold process_telegram_update
    rw [hmsg]
    simp only [Bool.not_true, Bool.false_eq_true, if_false, if_neg hf, if_neg hc]
    split_ifs <;> exact hso'

/-- Witness for C9 at a concrete input: owner 7 is persisted; sender 8 gets
"Not authorized" and the owner id is unchanged. -/
theorem owner_authorization_spec_witness :
    (process_telegram_update stOwned updStranger).2
      = [SupAction.sendMessage 99 "Not authorized"] ∧
    (process_telegram_update stOwned updStranger).1.owner_id = stOwned.owner_id := by
  have h := owner_authorization_spec stOwned updStranger rfl (by decide) (by decide)
  exact ⟨(h.1 (by decide) (by decide)).1, h.2.2 (by decide)⟩

/-! ## C4 — parallel fan-out decision and result ordering -/

/-- C4 (amended): a batch is run on the concurrent path iff it has at least
two calls and every called tool is in the read-only whitelist, with
`min(n, 8)` workers; otherwise it runs sequentially; and in both cases the
i-th tool-result message carries the i-th call's id (original order). -/
theorem parallel_batch_amended (cfg : LoopCfg) (tcs : List ToolCall) :
    ((runBatch cfg tcs).parallel = true ↔
      1 < tcs.length ∧ ∀ tc ∈ tcs, tc.name ∈ READ_ONLY_PARALLEL_TOOLS) ∧
    ((runBatch cfg tcs).parallel = true →
      (runBatch cfg tcs).workers = some (min tcs.length 8)) ∧
    ((runBatch cfg tcs).parallel = false → (runBatch cfg tcs).workers = none) ∧
    (runBatch cfg tcs).results = tcs.map (execCall cfg) ∧
    (toolResultMessages (runBatch cfg tcs).results).map Message.tool_call_id
      = tcs.map (fun tc => some tc.id) := by
  refine ⟨?_, fun h => ?_, fun h => ?_, rfl, ?_⟩
  · constructor
    · intro h
      have h' : can_parallel tcs = true := h
      simp only [can_parallel, Bool.and_eq_true, decide_eq_true_eq, List.all_eq_true] at h'
      exact ⟨h'.1, fun tc htc => contains_iff_mem.mp (h'.2 tc htc)⟩
    · rintro ⟨h1, h2⟩
      show can_parallel tcs = true
      simp only [can_parallel, Bool.and_eq_true, decide_eq_true_eq, List.all_eq_true]
      exact ⟨h1, fun tc htc => contains_iff_mem.mpr (h2 tc htc)⟩
  · have h' : can_parallel tcs = true := h
    show (if can_parallel tcs then some (min tcs.length 8) else none) = some (min tcs.length 8)
    rw [if_pos h']
  · have h' : can_parallel tcs = false := h
    show (if can_parallel tcs then some (min tcs.length 8) else none) = none
    rw [h']
    rfl
  · simp [toolResultMessages, runBatch, execCall, toolMsg]

/-- C4 counterexample: a batch of a single whitelisted call (`repo_read`)
runs on the sequential path with no worker pool, so "all whitelisted implies
concurrent" fails as stated. -/
theorem parallel_batch_claim_false :
    (∀ tc ∈ [tcRead], tc.name ∈ READ_ONLY_PARALLEL_TOOLS) ∧
    (runBatch cfg0 [tcRead]).parallel = false ∧
    (runBatch cfg0 [tcRead]).workers = none :=
  ⟨by decide, rfl, rfl⟩

/-- Witness for C4's amended theorem: two whitelisted calls run concurrently
with `min(2, 8)` workers, results keeping call order. -/
theorem parallel_batch_amended_witness :
    (runBatch cfg0 [tcRead, tcList]).parallel = true ∧
    (runBatch cfg0 [tcRead, tcList]).workers = some (min 2 8) ∧
    (toolResultMessages (runBatch cfg0 [tcRead, tcList]).results).map Message.tool_call_id
      = [some "call_1", some "call_2"] := by
  have h := parallel_batch_amended cfg0 [tcRead, tcList]
  have hp : (runBatch cfg0 [tcRead, tcList]).parallel = true :=
    h.1.mpr ⟨by decide, by decide⟩
  refine ⟨hp, h.2.1 hp, ?_⟩
  rw [h.2.2.2.2]
  rfl

/-! ## C2 — budget guard -/

/-- C2: at the end of a tool round with remaining budget `b > 0` and
`t = cost / b`: if `t > 1/2` the guard appends the `[BUDGET LIMIT]` system
message, makes exactly one final LLM call with no tools (same model/effort)
and stops the loop; if `3/10 < t ≤ 1/2` on a round divisible by 10 it
appends the soft nudge and continues; otherwise it appends nothing and
makes no call. -/
theorem budget_guard_spec (r : Nat) (model eff : String) (msgs : List Message)
    (cost b : ℚ) (script : List ChatOutcome) (hb : 0 < b) :
    (1 / 2 < cost / b →
      (∃ txt, (budget_guard r model eff msgs cost (some b) script).stop = some txt) ∧
      (budget_guard r model eff msgs cost (some b) script).messages
        = msgs ++ [systemMsg (budgetLimitMsg cost b)] ∧
      (budget_guard r model eff msgs cost (some b) script).calls.length = 1 ∧
      ∀ c ∈ (budget_guard r model eff msgs cost (some b) script).calls,
        c = ⟨r, model, eff, false⟩) ∧
    (3 / 10 < cost / b → cost / b ≤ 1 / 2 → r % 10 = 0 →
      (budget_guard r model eff msgs cost (some b) script).stop = none ∧
      (budget_guard r model eff msgs cost (some b) script).messages
        = msgs ++ [systemMsg (budgetNudgeMsg cost b)] ∧
      (budget_guard r model eff msgs cost (some b) script).calls = []) ∧
    ((cost / b ≤ 3 / 10 ∨ r % 10 ≠ 0) → cost / b ≤ 1 / 2 →
      (budget_guard r model eff msgs cost (some b) script).stop = none ∧
      (budget_guard r model eff msgs cost (some b) script).messages = msgs ∧
      (budget_guard r model eff msgs cost (some b) script).calls = []) := by
  refine ⟨fun h => ?_, fun h1 h2 h3 => ?_, fun h1 h2 => ?_⟩
  · simp only [budget_guard]
    rw [if_pos hb, if_pos h]
    rcases script with _ | ⟨o, rest⟩
    · simp [attemptChat]
    · rcases o with _ | rep
      · simp [attemptChat]
      · simp [attemptChat]
  · simp only [budget_guard]
    rw [if_pos hb, if_neg (not_lt.mpr h2), if_pos ⟨h1, h3⟩]
    exact ⟨rfl, rfl, rfl⟩
  · simp only [budget_guard]
    rw [if_pos hb, if_neg (not_lt.mpr h2), if_neg ?hcond]
    case hcond =>
      rintro ⟨hx, hy⟩
      rcases h1 with h1 | h1
      · exact absurd hx (not_lt.mpr h1)
      · exact h1 hy
    exact ⟨rfl, rfl, rfl⟩

/-- Witness for C2 at concrete inputs: 60% spend forces closure with one
no-tools call; 40% on round 10 appends the soft nudge; 20% appends nothing. -/
theorem budget_guard_spec_witness :
    (∃ txt, (budget_guard 3 "m" "low" [] (3 / 5) (some 1) []).stop = some txt) ∧
    (budget_guard 3 "m" "low" [] (3 / 5) (some 1) []).calls.length = 1 ∧
    (budget_guard 10 "m" "low" [] (2 / 5) (some 1) []).stop = none ∧
    (budget_guard 10 "m" "low" [] (2 / 5) (some 1) []).messages
      = [] ++ [systemMsg (budgetNudgeMsg (2 / 5) 1)] ∧
    (budget_guard 3 "m" "low" [] (1 / 5) (some 1) []).messages = [] := by
  have hA := budget_guard_spec 3 "m" "low" [] (3 / 5) 1 [] (by norm_num)
  have hB := budget_guard_spec 10 "m" "low" [] (2 / 5) 1 [] (by norm_num)
  have hC := budget_guard_spec 3 "m" "low" [] (1 / 5) 1 [] (by norm_num)
  exact ⟨(hA.1 (by norm_num)).1, (hA.1 (by norm_num)).2.2.1,
    (hB.2.1 (by norm_num) (by norm_num) (by norm_num)).1,
    (hB.2.1 (by norm_num) (by norm_num) (by norm_num)).2.1,
    (hC.2.2 (Or.inl (by norm_num)) (by norm_num)).2.1⟩

/-! ## C1 — task-profile selection and the first LLM call -/

theorem head?_append_of_some {α : Type} {l1 l2 : List α} {x : α}
    (h : l1.head? = some x) : (l1 ++ l2).head? = some x := by
  cases l1 <;> simp_all

theorem attemptChat_head (r : Nat) (m e : String) (w : Bool) (k : Nat) (hk : 1 ≤ k)
    (s : List ChatOutcome) :
    ((attemptChat r m e w k s).2.2).head? = some ⟨r, m, e, w⟩ := by
  cases k with
  | zero => omega
  | succ k =>
    rcases s with _ | ⟨o, rest⟩
    · rfl
    · rcases o with _ | rep <;> rfl

theorem runRound_head (cfg : LoopCfg) (st : LoopSt) (script : List ChatOutcome) :
    ((runRound cfg st script).2.2.2).head?
      = some ⟨st.round + 1, st.activeModel, (roundPrep cfg st).2, true⟩ := by
  have hA := attemptChat_head (st.round + 1) st.activeModel (roundPrep cfg st).2 true 3
    (by omega) script
  simp only [runRound]
  rcases hE : attemptChat (st.round + 1) st.activeModel (roundPrep cfg st).2 true 3 script
    with ⟨res, script', recs⟩
  rw [hE] at hA
  rcases res with _ | rep
  · exact hA
  · dsimp only
    by_cases hc : rep.tool_calls.isEmpty
    · rw [if_pos hc]
      exact hA
    · rw [if_neg hc]
      split <;> exact head?_append_of_some hA

theorem runLoopAux_calls (cfg : LoopCfg) :
    ∀ (fuel : Nat) (st : LoopSt) (script : List ChatOutcome) (acc : List CallRec),
      ∃ t, (runLoopAux cfg fuel st script acc).calls = acc ++ t := by
  intro fuel
  induction fuel with
  | zero =>
    intro st script acc
    exact ⟨[], by simp [runLoopAux]⟩
  | succ n ih =>
    intro st script acc
    rcases hR : runRound cfg st script with ⟨out, st', script', recs⟩
    cases out with
    | finalAnswer c tcs =>
      refine ⟨recs, ?_⟩
      unfold runLoopAux
      rw [hR]
    | llmFail t =>
      refine ⟨recs, ?_⟩
      unfold runLoopAux
      rw [hR]
    | budgetStop t =>
      refine ⟨recs, ?_⟩
      unfold runLoopAux
      rw [hR]
    | next =>
      obtain ⟨t, ht⟩ := ih st' script' (acc ++ recs)
      refine ⟨recs ++ t, ?_⟩
      unfold runLoopAux
      rw [hR, ht, List.append_assoc]

theorem runLoopAux_calls_cons (cfg : LoopCfg) (fuel : Nat) (st : LoopSt)
    (script : List ChatOutcome) (acc : List CallRec) :
    ∃ t, (runLoopAux cfg (fuel + 1) st script acc).calls
      = acc ++ ((runRound cfg st script).2.2.2 ++ t) := by
  rcases hR : runRound cfg st script with ⟨out, st', script', recs⟩
  cases out with
  | finalAnswer c tcs =>
    refine ⟨[], ?_⟩
    unfold runLoopAux
    rw [hR]
    simp
  | llmFail t =>
    refine ⟨[], ?_⟩
    unfold runLoopAux
    rw [hR]
    simp
  | budgetStop t =>
    refine ⟨[], ?_⟩
    unfold runLoopAux
    rw [hR]
    simp
  | next =>
    obtain ⟨t, ht⟩ := runLoopAux_calls cfg fuel st' script' (acc ++ recs)
    refine ⟨t, ?_⟩
    unfold runLoopAux
    rw [hR, ht, List.append_assoc]

/-- C1: the Task Loop selects the profile by task type (analysis/review →
analysis, code → code_task, consciousness → consciousness, else default)
and its first LLM call uses exactly that profile's model and effort, with
tool schemas offered. -/
theorem first_call_uses_task_profile (cfg : LoopCfg) (tt : String) (msgs : List Message)
    (script : List ChatOutcome) (fuel : Nat) (hf : 1 ≤ fuel) :
    (run_llm_loop cfg tt msgs fuel script).calls.head?
      = some ⟨1, (cfg.profiles (select_task_profile tt)).model,
          (cfg.profiles (select_task_profile tt)).effort, true⟩ ∧
    (select_task_profile "analysis" = "analysis" ∧ select_task_profile "review" = "analysis" ∧
      select_task_profile "code" = "code_task" ∧
      select_task_profile "consciousness" = "consciousness") ∧
    (tt ≠ "analysis" → tt ≠ "review" → tt ≠ "code" → tt ≠ "consciousness" →
      select_task_profile tt = "default") := by
  refine ⟨?_, by decide, fun h1 h2 h3 h4 => ?_⟩
  · obtain ⟨f, rfl⟩ : ∃ f, fuel = f + 1 := ⟨fuel - 1, by omega⟩
    obtain ⟨t, ht⟩ := runLoopAux_calls_cons cfg f (initLoopSt cfg tt msgs) script []
    unfold run_llm_loop
    rw [ht, List.nil_append]
    have hh := runRound_head cfg (initLoopSt cfg tt msgs) script
    have hpe : (roundPrep cfg (initLoopSt cfg tt msgs)).2
        = (cfg.profiles (select_task_profile tt)).effort := by
      simp [roundPrep, initLoopSt]
    rw [hpe] at hh
    exact head?_append_of_some hh
  · unfold select_task_profile
    rw [if_neg (by tauto), if_neg h3, if_neg h4]

/-- Witness for C1 at concrete inputs: an `analysis` task's first call uses
the analysis profile; `chat` maps to the default profile. -/
theorem first_call_uses_task_profile_witness :
    (run_llm_loop cfg0 "analysis" [] 1 []).calls.head?
      = some ⟨1, "analysis-model", "medium", true⟩ ∧
    select_task_profile "chat" = "default" := by
  have h := first_call_uses_task_profile cfg0 "analysis" [] [] 1 (by omega)
  have h2 := first_call_uses_task_profile cfg0 "chat" [] [] 1 (by omega)
  refine ⟨?_, h2.2.2 (by decide) (by decide) (by decide) (by decide)⟩
  rw [h.1]
  rfl

/-! ## C3 — the conversation pairing invariant -/

theorem wellPairedAux_append :
    ∀ (xs : List Message) (pending : List ToolCall) (ys : List Message),
      wellPairedAux xs pending = true → wellPairedAux ys [] = true →
      wellPairedAux (xs ++ ys) pending = true := by
  intro xs
  induction xs with
  | nil =>
    intro pending ys h1 h2
    have hp : pending = [] := by
      cases pending with
      | nil => rfl
      | cons c cs => simp [wellPairedAux] at h1
    subst hp
    simpa using h2
  | cons m rest ih =>
    intro pending ys h1 h2
    cases pending with
    | nil =>
      simp only [wellPairedAux, List.cons_append] at h1 ⊢
      by_cases ht : (m.role == Role.tool) = true
      · rw [if_pos ht] at h1
        exact absurd h1 (by simp)
      · rw [if_neg ht] at h1 ⊢
        by_cases ha : (m.role == Role.assistant) = true
        · rw [if_pos ha] at h1 ⊢
          exact ih _ ys h1 h2
        · rw [if_neg ha] at h1 ⊢
          exact ih _ ys h1 h2
    | cons c cs =>
      simp only [wellPairedAux, List.cons_append, Bool.and_eq_true] at h1 ⊢
      exact ⟨h1.1, ih _ ys h1.2 h2⟩

theorem wellPaired_userMsgs (l : List String) : wellPairedAux (l.map userMsg) [] = true := by
  induction l with
  | nil => rfl
  | cons s t ih =>
    simp only [List.map_cons, wellPairedAux]
    rw [if_neg (by exact Bool.false_ne_true), if_neg (by exact Bool.false_ne_true)]
    exact ih

theorem wellPaired_single_system (s : String) : wellPairedAux [systemMsg s] [] = true := by
  rfl

theorem wellPairedAux_toolMsgs (f : ToolCall → String) :
    ∀ tcs : List ToolCall,
      wellPairedAux (tcs.map (fun tc => toolMsg tc.id (f tc))) tcs = true := by
  intro tcs
  induction tcs with
  | nil => rfl
  | cons c cs ih =>
    simp only [List.map_cons, wellPairedAux, Bool.and_eq_true]
    exact ⟨⟨rfl, beq_self_eq_true (some c.id)⟩, ih⟩

theorem wellPaired_block (c0 : String) (tcs : List ToolCall) (f : ToolCall → String) :
    wellPairedAux (assistantMsg c0 tcs :: tcs.map (fun tc => toolMsg tc.id (f tc))) [] = true := by
  simp only [wellPairedAux]
  rw [if_neg (by exact Bool.false_ne_true),
    if_pos (show ((assistantMsg c0 tcs).role == Role.assistant) = true from rfl)]
  exact wellPairedAux_toolMsgs f tcs

theorem wellPairedAux_congr :
    ∀ (xs ys : List Message), xs.map skel = ys.map skel →
      ∀ pending, wellPairedAux xs pending = wellPairedAux ys pending := by
  intro xs
  induction xs with
  | nil =>
    intro ys h pending
    cases ys with
    | nil => rfl
    | cons y yt => simp at h
  | cons x xt ih =>
    intro ys h pending
    cases ys with
    | nil => simp at h
    | cons y yt =>
      simp only [List.map_cons, List.cons.injEq] at h
      obtain ⟨hxy, ht⟩ := h
      have h1 : x.role = y.role := congrArg (fun p => p.1) hxy
      have h2 : x.tool_calls = y.tool_calls := congrArg (fun p => p.2.1) hxy
      have h3 : x.tool_call_id = y.tool_call_id := congrArg (fun p => p.2.2) hxy
      cases pending with
      | nil =>
        simp only [wellPairedAux]
        rw [h1, h2]
        by_cases hT : (y.role == Role.tool) = true
        · rw [if_pos hT, if_pos hT]
        · rw [if_neg hT, if_neg hT]
          by_cases hA : (y.role == Role.assistant) = true
          · rw [if_pos hA, if_pos hA]
            exact ih yt ht y.tool_calls
          · rw [if_neg hA, if_neg hA]
            exact ih yt ht []
      | cons c cs =>
        simp only [wellPairedAux]
        rw [h1, h3, ih yt ht cs]

theorem compact_skel (msgs : List Message) (k : Nat) :
    (compact_tool_history msgs k).map skel = msgs.map skel := by
  unfold compact_tool_history
  rw [List.map_map]
  have h1 : (skel ∘ fun p : Nat × Message =>
      if p.2.role == Role.tool && decide (p.1 < compactBoundary msgs k) then
        { p.2 with content := compactedNote p.2 } else p.2) = (fun p => skel p.2) := by
    funext p
    by_cases h : (p.2.role == Role.tool && decide (p.1 < compactBoundary msgs k)) = true
    · simp [Function.comp, h, skel]
    · simp [Function.comp, h, skel]
  rw [h1]
  rw [show (fun p : Nat × Message => skel p.2) = skel ∘ Prod.snd from rfl]
  rw [← List.map_map, List.enum_map_snd]

theorem roundPrep_wellPaired (cfg : LoopCfg) (st : LoopSt)
    (h : wellPaired st.messages = true) :
    wellPaired (roundPrep cfg st).1 = true := by
  unfold roundPrep
  dsimp only
  have h1 : wellPaired (st.messages ++ (cfg.inject (st.round + 1)).map userMsg) = true :=
    wellPairedAux_append _ _ _ h (wellPaired_userMsgs _)
  have h2 : wellPaired (if 1 < st.round + 1 ∧ (st.round + 1) % 20 = 0
      then (st.messages ++ (cfg.inject (st.round + 1)).map userMsg)
        ++ [systemMsg (selfCheckMsg (st.round + 1) st.cost)]
      else st.messages ++ (cfg.inject (st.round + 1)).map userMsg) = true := by
    split
    · exact wellPairedAux_append _ _ _ h1 (wellPaired_single_system _)
    · exact h1
  split
  · unfold wellPaired
    rw [wellPairedAux_congr _ _ (compact_skel _ _) []]
    exact h2
  · exact h2

theorem roundTools_wellPaired (cfg : LoopCfg) (model eff : String) (msgs : List Message)
    (rep : ChatReply) (h : wellPaired msgs = true) :
    wellPaired (roundTools cfg model eff msgs rep).1 = true := by
  unfold roundTools
  dsimp only
  rw [List.append_assoc]
  refine wellPairedAux_append _ _ _ h ?_
  have hb : toolResultMessages (runBatch cfg rep.tool_calls).results
      = rep.tool_calls.map
          (fun tc => toolMsg tc.id (truncate_tool_result (cfg.execTool tc))) := by
    simp [toolResultMessages, runBatch, execCall]
  rw [List.singleton_append, hb]
  exact wellPaired_block _ _ _

theorem budget_guard_messages (r : Nat) (model eff : String) (msgs : List Message)
    (cost : ℚ) (budget : Option ℚ) (script : List ChatOutcome) :
    (budget_guard r model eff msgs cost budget script).messages = msgs ∨
    ∃ s, (budget_guard r model eff msgs cost budget script).messages
      = msgs ++ [systemMsg s] := by
  cases budget with
  | none => exact Or.inl rfl
  | some b =>
    simp only [budget_guard]
    by_cases h1 : (1 : ℚ) / 2 < (if 0 < b then cost / b else 1)
    · rw [if_pos h1]
      rcases hA : attemptChat r model eff false 1 script with ⟨res, s', recs⟩
      rcases res with _ | rep
      · exact Or.inr ⟨_, rfl⟩
      · exact Or.inr ⟨_, rfl⟩
    · rw [if_neg h1]
      by_cases h2 : (3 : ℚ) / 10 < (if 0 < b then cost / b else 1) ∧ r % 10 = 0
      · rw [if_pos h2]
        exact Or.inr ⟨_, rfl⟩
      · rw [if_neg h2]
        exact Or.inl rfl

theorem runRound_wellPaired (cfg : LoopCfg) (st : LoopSt) (script : List ChatOutcome)
    (h : wellPaired st.messages = true) :
    wellPaired ((runRound cfg st script).2.1).messages = true := by
  have hprep := roundPrep_wellPaired cfg st h
  simp only [runRound]
  rcases hE : attemptChat (st.round + 1) st.activeModel (roundPrep cfg st).2 true 3 script
    with ⟨res, script', recs⟩
  rcases res with _ | rep
  · exact hprep
  · dsimp only
    by_cases hc : rep.tool_calls.isEmpty
    · rw [if_pos hc]
      exact hprep
    · rw [if_neg hc]
      have htools := roundTools_wellPaired cfg st.activeModel (roundPrep cfg st).2
        (roundPrep cfg st).1 rep hprep
      have hg := budget_guard_messages (st.round + 1)
        (roundTools cfg st.activeModel (roundPrep cfg st).2 (roundPrep cfg st).1 rep).2.1
        (roundTools cfg st.activeModel (roundPrep cfg st).2 (roundPrep cfg st).1 rep).2.2
        (roundTools cfg st.activeModel (roundPrep cfg st).2 (roundPrep cfg st).1 rep).1
        (st.cost + rep.cost) cfg.budget_remaining script'
      split
      · dsimp only
        rcases hg with hg | ⟨s, hg⟩
        · rw [hg]
          exact htools
        · rw [hg]
          exact wellPairedAux_append _ _ _ htools (wellPaired_single_system s)
      · dsimp only
        rcases hg with hg | ⟨s, hg⟩
        · rw [hg]
          exact htools
        · rw [hg]
          exact wellPairedAux_append _ _ _ htools (wellPaired_single_system s)

theorem runLoopAux_wellPaired (cfg : LoopCfg) :
    ∀ (fuel : Nat) (st : LoopSt) (script : List ChatOutcome) (acc : List CallRec),
      wellPaired st.messages = true →
      wellPaired (runLoopAux cfg fuel st script acc).messages = true := by
  intro fuel
  induction fuel with
  | zero =>
    intro st script acc h
    simpa [runLoopAux] using h
  | succ n ih =>
    intro st script acc h
    have hr := runRound_wellPaired cfg st script h
    rcases hR : runRound cfg st script with ⟨out, st', script', recs⟩
    rw [hR] at hr
    cases out with
    | finalAnswer c tcs =>
      unfold runLoopAux
      rw [hR]
      exact hr
    | llmFail t =>
      unfold runLoopAux
      rw [hR]
      exact hr
    | budgetStop t =>
      unfold runLoopAux
      rw [hR]
      exact hr
    | next =>
      unfold runLoopAux
      rw [hR]
      exact ih st' script' (acc ++ recs) hr

theorem runRound_answer_calls (cfg : LoopCfg) (st : LoopSt) (script : List ChatOutcome) :
    ∀ c tcs, (runRound cfg st script).1 = RoundOut.finalAnswer c tcs → tcs = [] := by
  intro c tcs h
  simp only [runRound] at h
  rcases hE : attemptChat (st.round + 1) st.activeModel (roundPrep cfg st).2 true 3 script
    with ⟨res, script', recs⟩
  rw [hE] at h
  rcases res with _ | rep
  · simp at h
  · dsimp only at h
    by_cases hc : rep.tool_calls.isEmpty
    · rw [if_pos hc] at h
      dsimp only at h
      simp only [RoundOut.finalAnswer.injEq] at h
      rw [← h.2]
      simpa using hc
    · rw [if_neg hc] at h
      split at h <;> simp at h

theorem runLoopAux_answer_calls (cfg : LoopCfg) :
    ∀ (fuel : Nat) (st : LoopSt) (script : List ChatOutcome) (acc : List CallRec) c tcs,
      (runLoopAux cfg fuel st script acc).exit = LoopExit.answer c tcs → tcs = [] := by
  intro fuel
  induction fuel with
  | zero =>
    intro st script acc c tcs h
    simp [runLoopAux] at h
  | succ n ih =>
    intro st script acc c tcs h
    have hout := runRound_answer_calls cfg st script
    rcases hR : runRound cfg st script with ⟨out, st', script', recs⟩
    rw [hR] at hout
    unfold runLoopAux at h
    rw [hR] at h
    cases out with
    | finalAnswer c0 tcs0 =>
      dsimp only at h
      simp only [LoopExit.answer.injEq] at h
      rw [← h.2]
      exact hout c0 tcs0 rfl
    | llmFail t => simp at h
    | budgetStop t => simp at h
    | next => exact ih st' script' (acc ++ recs) c tcs h

/-- C3: starting from a well-paired buffer, every buffer the Task Loop
produces is well-paired — each assistant message with non-empty tool calls
is immediately followed by exactly one tool message per call, in emission
order, with no orphan tool messages — and the loop returns a final answer
only on an assistant reply whose tool-call list is empty (the other exits
being LLM failure, budget closure, or fuel exhaustion). -/
theorem conversation_pairing_invariant (cfg : LoopCfg) (tt : String) (msgs : List Message)
    (fuel : Nat) (script : List ChatOutcome) (h : wellPaired msgs = true) :
    wellPaired ((run_llm_loop cfg tt msgs fuel script).messages) = true ∧
    ∀ c tcs, (run_llm_loop cfg tt msgs fuel script).exit = LoopExit.answer c tcs →
      tcs = [] :=
  ⟨runLoopAux_wellPaired cfg fuel (initLoopSt cfg tt msgs) script [] h,
   fun c tcs => runLoopAux_answer_calls cfg fuel (initLoopSt cfg tt msgs) script [] c tcs⟩

/-- Witness for C3 at a concrete input. -/
theorem conversation_pairing_invariant_witness :
    wellPaired ((run_llm_loop cfg0 "chat" [systemMsg "boot"] 1 []).messages) = true :=
  (conversation_pairing_invariant cfg0 "chat" [systemMsg "boot"] 1 [] (by decide)).1

/-! ## C6 — monotone reasoning-effort escalation -/

theorem rank_le_5 (s : String) : reasoning_rank s ≤ 5 := by
  unfold reasoning_rank
  dsimp only
  split_ifs <;> omega

theorem maybe_raise_ge (e t : String) :
    reasoning_rank e ≤ reasoning_rank (maybe_raise_effort e t) := by
  unfold maybe_raise_effort
  dsimp only
  split_ifs with h
  · exact le_of_lt h
  · exact le_refl _

theorem maybe_raise_high (e : String) :
    4 ≤ reasoning_rank (maybe_raise_effort e "high") := by
  unfold maybe_raise_effort
  dsimp only
  rw [show normalize_reasoning_effort "high" e = "high" from rfl]
  have h4 : reasoning_rank "high" = 4 := rfl
  split_ifs with h
  · omega
  · omega

theorem maybe_raise_xhigh (e : String) :
    reasoning_rank (maybe_raise_effort e "xhigh") = 5 := by
  unfold maybe_raise_effort
  dsimp only
  rw [show normalize_reasoning_effort "xhigh" e = "xhigh" from rfl]
  have h5 : reasoning_rank "xhigh" = 5 := rfl
  have hle := rank_le_5 e
  split_ifs with h
  · omega
  · omega

theorem switch_ge (cfg : LoopCfg) (model eff : String) :
    reasoning_rank eff ≤ reasoning_rank (switch_to_code_profile cfg model eff).2 := by
  unfold switch_to_code_profile
  dsimp only
  split_ifs with h1 h2
  · exact le_of_lt h2
  · exact le_refl _
  · exact le_refl _

theorem escalation_ge (e : String) (n : Nat) :
    reasoning_rank e ≤ reasoning_rank (error_escalation e n) := by
  unfold error_escalation
  dsimp only
  by_cases h2 : 2 ≤ n
  · rw [if_pos h2]
    by_cases h4 : 4 ≤ n
    · rw [if_pos h4]
      exact le_trans (maybe_raise_ge _ _) (maybe_raise_ge _ _)
    · rw [if_neg h4]
      exact maybe_raise_ge _ _
  · rw [if_neg h2]
    by_cases h4 : 4 ≤ n
    · rw [if_pos h4]
      exact maybe_raise_ge _ _
    · rw [if_neg h4]

theorem escalation_high (e : String) (n : Nat) (h : 2 ≤ n) :
    4 ≤ reasoning_rank (error_escalation e n) := by
  unfold error_escalation
  dsimp only
  rw [if_pos h]
  have s1 := maybe_raise_high e
  by_cases h4 : 4 ≤ n
  · rw [if_pos h4]
    have := maybe_raise_ge (maybe_raise_effort e "high") "xhigh"
    omega
  · rw [if_neg h4]
    exact s1

theorem escalation_xhigh (e : String) (n : Nat) (h : 4 ≤ n) :
    reasoning_rank (error_escalation e n) = 5 := by
  unfold error_escalation
  dsimp only
  rw [if_pos (by omega : 2 ≤ n), if_pos h]
  exact maybe_raise_xhigh _

theorem effort_ladder_ge (e : String) (r : Nat) :
    reasoning_rank e ≤ reasoning_rank (if 10 ≤ r
      then maybe_raise_effort (if 5 ≤ r then maybe_raise_effort e "high" else e) "xhigh"
      else (if 5 ≤ r then maybe_raise_effort e "high" else e)) := by
  by_cases h5 : 5 ≤ r
  · rw [if_pos h5]
    by_cases h10 : 10 ≤ r
    · rw [if_pos h10]
      exact le_trans (maybe_raise_ge _ _) (maybe_raise_ge _ _)
    · rw [if_neg h10]
      exact maybe_raise_ge _ _
  · rw [if_neg h5]
    by_cases h10 : 10 ≤ r
    · rw [if_pos h10]
      exact maybe_raise_ge _ _
    · rw [if_neg h10]

theorem effort_ladder_high (e : String) (r : Nat) (h : 5 ≤ r) :
    4 ≤ reasoning_rank (if 10 ≤ r
      then maybe_raise_effort (if 5 ≤ r then maybe_raise_effort e "high" else e) "xhigh"
      else (if 5 ≤ r then maybe_raise_effort e "high" else e)) := by
  rw [if_pos h]
  have h1 := maybe_raise_high e
  by_cases h10 : 10 ≤ r
  · rw [if_pos h10]
    have := maybe_raise_xhigh (maybe_raise_effort e "high")
    omega
  · rw [if_neg h10]
    exact h1

theorem effort_ladder_xhigh (e : String) (r : Nat) (h : 10 ≤ r) :
    reasoning_rank (if 10 ≤ r
      then maybe_raise_effort (if 5 ≤ r then maybe_raise_effort e "high" else e) "xhigh"
      else (if 5 ≤ r then maybe_raise_effort e "high" else e)) = 5 := by
  rw [if_pos h]
  exact maybe_raise_xhigh _

theorem roundPrep_eff_ge (cfg : LoopCfg) (st : LoopSt) :
    reasoning_rank st.activeEffort ≤ reasoning_rank (roundPrep cfg st).2 := by
  unfold roundPrep
  dsimp only
  exact effort_ladder_ge st.activeEffort (st.round + 1)

theorem roundPrep_eff_high (cfg : LoopCfg) (st : LoopSt) (h : 5 ≤ st.round + 1) :
    4 ≤ reasoning_rank (roundPrep cfg st).2 := by
  unfold roundPrep
  dsimp only
  exact effort_ladder_high st.activeEffort (st.round + 1) h

theorem roundPrep_eff_xhigh (cfg : LoopCfg) (st : LoopSt) (h : 10 ≤ st.round + 1) :
    reasoning_rank (roundPrep cfg st).2 = 5 := by
  unfold roundPrep
  dsimp only
  exact effort_ladder_xhigh st.activeEffort (st.round + 1) h

theorem roundTools_eff_ge (cfg : LoopCfg) (model eff : String) (msgs : List Message)
    (rep : ChatReply) :
    reasoning_rank eff ≤ reasoning_rank (roundTools cfg model eff msgs rep).2.2 := by
  unfold roundTools
  dsimp only
  refine le_trans ?_ (escalation_ge _ _)
  split_ifs with h
  · exact switch_ge cfg model eff
  · exact le_refl _

theorem attemptChat_mem (r : Nat) (m e : String) (w : Bool) :
    ∀ (k : Nat) (s : List ChatOutcome) (c : CallRec),
      c ∈ (attemptChat r m e w k s).2.2 → c = ⟨r, m, e, w⟩ := by
  intro k
  induction k with
  | zero =>
    intro s c hc
    simp [attemptChat] at hc
  | succ n ih =>
    intro s c hc
    rcases s with _ | ⟨o, rest⟩
    · simp only [attemptChat] at hc
      rcases List.mem_cons.mp hc with rfl | hc'
      · rfl
      · exact ih [] c hc'
    · rcases o with _ | rep
      · simp only [attemptChat] at hc
        rcases List.mem_cons.mp hc with rfl | hc'
        · rfl
        · exact ih rest c hc'
      · simp only [attemptChat, List.mem_singleton] at hc
        exact hc

theorem budget_guard_calls (r : Nat) (model eff : String) (msgs : List Message)
    (cost : ℚ) (budget : Option ℚ) (script : List ChatOutcome) :
    ∀ c ∈ (budget_guard r model eff msgs cost budget script).calls,
      c = ⟨r, model, eff, false⟩ := by
  cases budget with
  | none =>
    intro c hc
    simp [budget_guard] at hc
  | some b =>
    intro c hc
    simp only [budget_guard] at hc
    by_cases h1 : (1 : ℚ) / 2 < (if 0 < b then cost / b else 1)
    · rw [if_pos h1] at hc
      have hmem : c ∈ (attemptChat r model eff false 1 script).2.2 := by
        rcases hA : attemptChat r model eff false 1 script with ⟨res, s', recs⟩
        rw [hA] at hc
        rcases res with _ | rep
        · exact hc
        · exact hc
      exact attemptChat_mem r model eff false 1 script c hmem
    · rw [if_neg h1] at hc
      by_cases h2 : (3 : ℚ) / 10 < (if 0 < b then cost / b else 1) ∧ r % 10 = 0
      · rw [if_pos h2] at hc
        simp at hc
      · rw [if_neg h2] at hc
        simp at hc

theorem monoFrom_le : ∀ (l : List Nat) (lo hi : Nat), monoFrom lo l hi → lo ≤ hi := by
  intro l
  induction l with
  | nil => intro lo hi h; exact h
  | cons x xs ih => intro lo hi h; exact le_trans h.1 (ih x hi h.2)

theorem monoFrom_lo_mono : ∀ (l : List Nat) (lo lo' hi : Nat), lo' ≤ lo →
    monoFrom lo l hi → monoFrom lo' l hi := by
  intro l
  cases l with
  | nil => intro lo lo' hi hle h; exact le_trans hle h
  | cons x xs => intro lo lo' hi hle h; exact ⟨le_trans hle h.1, h.2⟩

theorem monoFrom_append : ∀ (l1 l2 : List Nat) (lo mid hi : Nat),
    monoFrom lo l1 mid → monoFrom mid l2 hi → monoFrom lo (l1 ++ l2) hi := by
  intro l1
  induction l1 with
  | nil =>
    intro l2 lo mid hi h1 h2
    exact monoFrom_lo_mono l2 mid lo hi h1 h2
  | cons x xs ih =>
    intro l2 lo mid hi h1 h2
    exact ⟨h1.1, ih l2 x mid hi h1.2 h2⟩

theorem monoFrom_const : ∀ (l : List Nat) (a lo hi : Nat), (∀ x ∈ l, x = a) →
    lo ≤ a → a ≤ hi → monoFrom lo l hi := by
  intro l
  induction l with
  | nil => intro a lo hi _ h1 h2; exact le_trans h1 h2
  | cons x xs ih =>
    intro a lo hi hall h1 h2
    have hx : x = a := hall x (by simp)
    subst hx
    exact ⟨h1, ih x x hi (fun y hy => hall y (by simp [hy])) (le_refl x) h2⟩

theorem monoFrom_mem_le : ∀ (l : List Nat) (lo hi : Nat), monoFrom lo l hi →
    ∀ x ∈ l, lo ≤ x := by
  intro l
  induction l with
  | nil => intro lo hi _ x hx; cases hx
  | cons y ys ih =>
    intro lo hi h x hx
    rcases List.mem_cons.mp hx with rfl | hx'
    · exact h.1
    · exact le_trans h.1 (ih y hi h.2 x hx')

theorem monoFrom_pairwise : ∀ (l : List Nat) (lo hi : Nat), monoFrom lo l hi →
    l.Pairwise (· ≤ ·) := by
  intro l
  induction l with
  | nil => intro lo hi _; exact List.Pairwise.nil
  | cons x xs ih =>
    intro lo hi h
    exact List.Pairwise.cons (fun y hy => monoFrom_mem_le xs x hi h.2 y hy) (ih x hi h.2)

theorem rankEff_mk (r : Nat) (m e : String) (w : Bool) :
    rankEff ⟨r, m, e, w⟩ = reasoning_rank e := rfl

theorem runRound_effort (cfg : LoopCfg) (st : LoopSt) (script : List ChatOutcome)
    (out : RoundOut) (st' : LoopSt) (script' : List ChatOutcome) (recs : List CallRec)
    (hE : runRound cfg st script = (out, st', script', recs)) :
    st'.round = st.round + 1 ∧
    monoFrom (reasoning_rank st.activeEffort) (recs.map rankEff)
      (reasoning_rank st'.activeEffort) ∧
    (∀ c ∈ recs, c.round = st.round + 1) ∧
    (5 ≤ st.round + 1 → ∀ c ∈ recs, 4 ≤ rankEff c) ∧
    (10 ≤ st.round + 1 → ∀ c ∈ recs, rankEff c = 5) := by
  have hge := roundPrep_eff_ge cfg st
  have hhigh := roundPrep_eff_high cfg st
  have hxhigh := roundPrep_eff_xhigh cfg st
  simp only [runRound] at hE
  rcases hA : attemptChat (st.round + 1) st.activeModel (roundPrep cfg st).2 true 3 script
    with ⟨res, s0, rcs⟩
  rw [hA] at hE
  have hrcs : ∀ c ∈ rcs, c = ⟨st.round + 1, st.activeModel, (roundPrep cfg st).2, true⟩ := by
    intro c hc
    apply attemptChat_mem (st.round + 1) st.activeModel (roundPrep cfg st).2 true 3 script
    rw [hA]
    exact hc
  have hrankrcs : ∀ x ∈ rcs.map rankEff, x = reasoning_rank (roundPrep cfg st).2 := by
    intro x hx
    obtain ⟨c, hc, rfl⟩ := List.mem_map.mp hx
    rw [hrcs c hc, rankEff_mk]
  rcases res with _ | rep
  · dsimp only at hE
    injection hE with e1 hE2
    injection hE2 with e2 hE3
    injection hE3 with e3 e4
    subst e1
    subst e2
    subst e3
    subst e4
    refine ⟨rfl, ?_, ?_, ?_, ?_⟩
    · exact monoFrom_const _ (reasoning_rank (roundPrep cfg st).2) _ _ hrankrcs hge
        (le_refl _)
    · intro c hc
      rw [hrcs c hc]
    · intro h5 c hc
      rw [hrcs c hc]
      exact hhigh h5
    · intro h10 c hc
      rw [hrcs c hc]
      exact hxhigh h10
  · dsimp only at hE
    by_cases hc0 : rep.tool_calls.isEmpty
    · rw [if_pos hc0] at hE
      injection hE with e1 hE2
      injection hE2 with e2 hE3
      injection hE3 with e3 e4
      subst e1
      subst e2
      subst e3
      subst e4
      refine ⟨rfl, ?_, ?_, ?_, ?_⟩
      · exact monoFrom_const _ (reasoning_rank (roundPrep cfg st).2) _ _ hrankrcs hge
          (le_refl _)
      · intro c hc
        rw [hrcs c hc]
      · intro h5 c hc
        rw [hrcs c hc]
        exact hhigh h5
      · intro h10 c hc
        rw [hrcs c hc]
        exact hxhigh h10
    · rw [if_neg hc0] at hE
      have htge := roundTools_eff_ge cfg st.activeModel (roundPrep cfg st).2
        (roundPrep cfg st).1 rep
      have hgc := budget_guard_calls (st.round + 1)
        (roundTools cfg st.activeModel (roundPrep cfg st).2 (roundPrep cfg st).1 rep).2.1
        (roundTools cfg st.activeModel (roundPrep cfg st).2 (roundPrep cfg st).1 rep).2.2
        (roundTools cfg st.activeModel (roundPrep cfg st).2 (roundPrep cfg st).1 rep).1
        (st.cost + rep.cost) cfg.budget_remaining s0
      split at hE
      all_goals
        injection hE with e1 hE2
        injection hE2 with e2 hE3
        injection hE3 with e3 e4
        subst e1
        subst e2
        subst e3
        subst e4
      all_goals {
        refine ⟨rfl, ?_, ?_, ?_, ?_⟩
        · rw [List.map_append]
          refine monoFrom_append _ _ _ (reasoning_rank (roundPrep cfg st).2) _
            (monoFrom_const _ (reasoning_rank (roundPrep cfg st).2) _ _ hrankrcs hge
              (le_refl _)) ?_
          refine monoFrom_const _ (reasoning_rank
            (roundTools cfg st.activeModel (roundPrep cfg st).2 (roundPrep cfg st).1
              rep).2.2) _ _ ?_ htge (le_refl _)
          intro x hx
          obtain ⟨c, hc, rfl⟩ := List.mem_map.mp hx
          rw [hgc c hc, rankEff_mk]
        · intro c hc
          rcases List.mem_append.mp hc with h | h
          · rw [hrcs c h]
          · rw [hgc c h]
        · intro h5 c hc
          rcases List.mem_append.mp hc with h | h
          · rw [hrcs c h]
            exact hhigh h5
          · rw [hgc c h]
            exact le_trans (hhigh h5) htge
        · intro h10 c hc
          rcases List.mem_append.mp hc with h | h
          · rw [hrcs c h]
            exact hxhigh h10
          · rw [hgc c h, rankEff_mk]
            have h1 := hxhigh h10
            have h2 := rank_le_5 (roundTools cfg st.activeModel (roundPrep cfg st).2
              (roundPrep cfg st).1 rep).2.2
            omega
      }

theorem runLoopAux_effort (cfg : LoopCfg) :
    ∀ (fuel : Nat) (st : LoopSt) (script : List ChatOutcome) (acc : List CallRec),
      ∃ t, (runLoopAux cfg fuel st script acc).calls = acc ++ t ∧
        monoFrom (reasoning_rank st.activeEffort) (t.map rankEff)
          (reasoning_rank (runLoopAux cfg fuel st script acc).effort) ∧
        (∀ c ∈ t, 5 ≤ c.round → 4 ≤ rankEff c) ∧
        (∀ c ∈ t, 10 ≤ c.round → rankEff c = 5) := by
  intro fuel
  induction fuel with
  | zero =>
    intro st script acc
    refine ⟨[], by simp [runLoopAux], ?_, by simp, by simp⟩
    exact le_refl _
  | succ n ih =>
    intro st script acc
    rcases hE : runRound cfg st script with ⟨out, st', script', recs⟩
    obtain ⟨hr1, hr2, hr3, hr4, hr5⟩ := runRound_effort cfg st script out st' script' recs hE
    cases out with
    | finalAnswer c0 tcs0 =>
      refine ⟨recs, ?_, ?_, ?_, ?_⟩
      · unfold runLoopAux
        rw [hE]
      · unfold runLoopAux
        rw [hE]
        exact hr2
      · intro c hc hr
        exact hr4 (by rw [← hr3 c hc]; exact hr) c hc
      · intro c hc hr
        exact hr5 (by rw [← hr3 c hc]; exact hr) c hc
    | llmFail t0 =>
      refine ⟨recs, ?_, ?_, ?_, ?_⟩
      · unfold runLoopAux
        rw [hE]
      · unfold runLoopAux
        rw [hE]
        exact hr2
      · intro c hc hr
        exact hr4 (by rw [← hr3 c hc]; exact hr) c hc
      · intro c hc hr
        exact hr5 (by rw [← hr3 c hc]; exact hr) c hc
    | budgetStop t0 =>
      refine ⟨recs, ?_, ?_, ?_, ?_⟩
      · unfold runLoopAux
        rw [hE]
      · unfold runLoopAux
        rw [hE]
        exact hr2
      · intro c hc hr
        exact hr4 (by rw [← hr3 c hc]; exact hr) c hc
      · intro c hc hr
        exact hr5 (by rw [← hr3 c hc]; exact hr) c hc
    | next =>
      obtain ⟨t, ht, hm, h4, h5⟩ := ih st' script' (acc ++ recs)
      refine ⟨recs ++ t, ?_, ?_, ?_, ?_⟩
      · unfold runLoopAux
        rw [hE, ht, List.append_assoc]
      · unfold runLoopAux
        rw [hE, List.map_append]
        exact monoFrom_append _ _ _ (reasoning_rank st'.activeEffort) _ hr2 hm
      · intro c hc hr
        rcases List.mem_append.mp hc with h | h
        · exact hr4 (by rw [← hr3 c h]; exact hr) c h
        · exact h4 c h hr
      · intro c hc hr
        rcases List.mem_append.mp hc with h | h
        · exact hr5 (by rw [← hr3 c h]; exact hr) c h
        · exact h5 c h hr

/-- C6: across one Task Loop invocation the per-call reasoning-effort ranks
are monotonically non-decreasing (no step lowers them); every call made in
round ≥ 5 has effort rank ≥ high, every call in round ≥ 10 has rank xhigh;
and the per-round error accounting raises effort to at least high at 2 tool
errors and to xhigh at 4. -/
theorem effort_escalation_monotone (cfg : LoopCfg) (tt : String) (msgs : List Message)
    (fuel : Nat) (script : List ChatOutcome) :
    ((run_llm_loop cfg tt msgs fuel script).calls.map rankEff).Pairwise (· ≤ ·) ∧
    (∀ c ∈ (run_llm_loop cfg tt msgs fuel script).calls, 5 ≤ c.round → 4 ≤ rankEff c) ∧
    (∀ c ∈ (run_llm_loop cfg tt msgs fuel script).calls, 10 ≤ c.round → rankEff c = 5) ∧
    (∀ eff errs, 2 ≤ errs → 4 ≤ reasoning_rank (error_escalation eff errs)) ∧
    (∀ eff errs, 4 ≤ errs → reasoning_rank (error_escalation eff errs) = 5) := by
  obtain ⟨t, ht, hm, h4, h5⟩ := runLoopAux_effort cfg fuel (initLoopSt cfg tt msgs) script []
  have hcalls : (run_llm_loop cfg tt msgs fuel script).calls = t := by
    unfold run_llm_loop
    rw [ht, List.nil_append]
  refine ⟨?_, ?_, ?_, fun eff errs h => escalation_high eff errs h,
    fun eff errs h => escalation_xhigh eff errs h⟩
  · rw [hcalls]
    exact monoFrom_pairwise _ _ _ hm
  · rw [hcalls]
    exact h4
  · rw [hcalls]
    exact h5

/-- Witness for C6 at concrete inputs: two errors raise a low effort to
rank ≥ 4 and four to rank 5. -/
theorem effort_escalation_monotone_witness :
    4 ≤ reasoning_rank (error_escalation "low" 2) ∧
    reasoning_rank (error_escalation "low" 4) = 5 := by
  have h := effort_escalation_monotone cfg0 "chat" [] 0 []
  exact ⟨h.2.2.2.1 "low" 2 (by omega), h.2.2.2.2 "low" 4 (by omega)⟩

end Ouroboros
